import Mathlib

/-!
# Motion core of the juggling game (`src/animator.js`)

A shallow embedding of `BallAnimator`, `BallCollection`, `ArmAnimator`,
`ArmCollection` and `MotionCreator`.

Modelling conventions
* In the general definitions JavaScript numbers are elements of a linearly
  ordered field `α` with a floor function (exact arithmetic; `ℚ` and `ℝ` are
  instances).  The only undefined coordinates represented are those of the
  placeholder object `{}`.
* The arithmetic the source actually runs on, IEEE 754 binary64 with
  round-to-nearest-even, is given separately (`Double.add`, `Double.mul`,
  `Double.div`, `Double.sqrt`, ...) together with the numeric functions of the
  source evaluated in it (`Double.getPosition`, `Double.getVelocity`,
  `Double.getElbow`, `Double.first`).  Infinities and `NaN` are not represented.
* `Math.sqrt`, `Math.cos`, `Math.sin` and `Math.PI` are not available in an
  ordered field; they are supplied through a record `JSMath α`.
* A ball is identified by its position in `#stock` (the array only grows by
  `push`), so an arm's `lock` is an optional index.
* Counts of balls are natural numbers.
* A method that raises a `TypeError` returns `none`.  The exception is not
  caught by the source, so the object keeps the assignments made before the
  raise; that state is given by the definitions whose name ends in `Left`.
* The event registry is represented by the two flags `hasDrop` and `hasScore`;
  a call of a registered handler is recorded as an emitted `Event`.
-/

namespace Tap

set_option linter.unusedSectionVars false

/-- Stand-ins for the members of the platform object `Math` used by the source. -/
structure JSMath (α : Type) where
  /-- `Math.sqrt` -/
  sqrt : α → α
  /-- `Math.cos` -/
  cos : α → α
  /-- `Math.sin` -/
  sin : α → α
  /-- `Math.PI` -/
  pi : α

/-- A `DOMPoint`; the constructor defaults are `z = 0` and `w = 1`. -/
structure DOMPoint (α : Type) where
  x : α
  y : α
  z : α
  w : α
  deriving Repr

/-- The call `new DOMPoint(x, y)`. -/
def DOMPoint.xy {α : Type} [Zero α] [One α] (x y : α) : DOMPoint α := ⟨x, y, 0, 1⟩

/-- Side tag of a ball or an arm. -/
inductive Direction where
  | cross
  | left
  | right
  deriving DecidableEq, Repr

/-- A handler call made through `owner.events`. -/
inductive Event (α : Type) where
  | drop
  | score (value : α)

/-- Fields of a `BallAnimator`.  An entry `none` of `future` is the placeholder
object `{}` whose coordinates are undefined. -/
structure BallAnimator (α : Type) where
  x : α
  y : α
  dx : α
  dy : α
  future : List (Option (DOMPoint α))
  direction : Direction

/-- Fields of a `BallCollection`; `ptop` and `pbottom` are the private `#top`
and `#bottom`.  The source leaves `half` undefined until `setupStart` or
`setupSpeed` has run; the constructor of the model sets it to `0`. -/
structure BallCollection (α : Type) where
  ptop : α
  pbottom : α
  top : α
  bottom : α
  ground : α
  hasDrop : Bool
  hasScore : Bool
  count : Nat
  accel : α
  half : α
  stage : Nat
  scale : α
  stock : List (BallAnimator α)

/-- The object returned by `BallAnimator.getPosition`. -/
structure Position (α : Type) where
  x : α
  y : α
  dy : α

section Definitions

variable {α : Type} [LinearOrderedField α]

/-! ## BallAnimator -/

/-- The object made by `new BallAnimator(owner)` (lines 5-8).  Its coordinates
and queue are undefined in the source until `setup` runs; every collection
method that completes runs `setup` on a ball it has pushed, so the fields
given here are never read after a call that completes.  A ball that a raising
`addBall()` leaves without `setup` is tracked by its position
(`BallCollection.addBallBlank`); a tick that reaches it raises
(`BallCollection.drawNextLeft`). -/
def BallAnimator.fresh : BallAnimator α :=
  { x := 0, y := 0, dx := 0, dy := 0, future := [], direction := Direction.cross }

/-- `BallAnimator.setup(value)` (lines 11-17). -/
def BallAnimator.setup (b : BallAnimator α) (x y dx dy : α) (delay : Nat) : BallAnimator α :=
  { b with x := x, y := y, dx := dx, dy := dy,
           future := List.replicate delay (some (DOMPoint.xy x y)) }

/-- `BallAnimator.setFuture(points)` (lines 56-61) for an array `points`. -/
def BallAnimator.setFuture (b : BallAnimator α) (points : List (Option (DOMPoint α))) :
    BallAnimator α :=
  { b with future := points }

/-- `BallAnimator.getPosition(gap)` (lines 64-75). -/
def BallAnimator.getPosition (o : BallCollection α) (b : BallAnimator α) (gap : α) : Position α :=
  if gap = 0 then
    { x := b.x, y := b.y, dy := b.dy }
  else
    { x := b.x + b.dx * gap,
      y := b.y + (b.dy * gap + o.half * gap * (gap - 1)),
      dy := b.dy + o.accel * gap }

/-- Adopt the result of `getPosition(1)` as the free-fall branch of `setNext`
does (lines 39-42). -/
def BallAnimator.step (o : BallCollection α) (b : BallAnimator α) : BallAnimator α :=
  let next := b.getPosition o 1
  { b with x := next.x, y := next.y, dy := next.dy }

/-- The free-fall part of `BallAnimator.setNext` (lines 38-52), run on a ball
whose queue has already been shifted. -/
def BallAnimator.fall (o : BallCollection α) (b : BallAnimator α) :
    BallAnimator α × List (Event α) :=
  let b1 := b.step o
  if b1.dy < 0 then
    (b1, [])
  else if (o.ground < o.bottom ∧ o.bottom < b1.y) ∨ (b1.future.length = 0 ∧ o.ground < b1.y) then
    (b1, if o.hasDrop = true then [Event.drop] else [])
  else
    (b1, [])

/-- The value passed to the score handler (lines 30-31). -/
def BallAnimator.scoreOf [FloorRing α] (o : BallCollection α) (point : DOMPoint α) : α :=
  let base : ℤ := ⌊(point.y - o.top) * (o.count : α) / 100⌋
  (((max 0 base : ℤ) : α) + point.w) * point.z

/-- `BallAnimator.setNext()` (lines 20-53): the ball afterwards and the handler
calls made. -/
def BallAnimator.setNext [FloorRing α] (o : BallCollection α) (b : BallAnimator α) :
    BallAnimator α × List (Event α) :=
  match b.future with
  | [] => b.fall o
  | none :: rest => BallAnimator.fall o { b with future := rest }
  | some point :: rest =>
    ({ b with future := rest, x := point.x, y := point.y },
      if rest.length = 0 ∧ o.hasScore = true ∧ 0 < point.z then
        [Event.score (BallAnimator.scoreOf o point)]
      else [])

/-- `n` successive calls of `setNext()` on one ball under an unchanged
collection: the ball afterwards and all handler calls, in order. -/
def BallAnimator.run [FloorRing α] (o : BallCollection α) :
    Nat → BallAnimator α → BallAnimator α × List (Event α)
  | 0, b => (b, [])
  | n + 1, b =>
    let r := b.setNext o
    let r2 := BallAnimator.run o n r.1
    (r2.1, r.2 ++ r2.2)

/-- Whether a handler call is a call of the score handler. -/
def Event.isScore : Event α → Bool
  | Event.score _ => true
  | Event.drop => false

/-! ## BallCollection -/

/-- `new BallCollection(view)` (lines 86-99); `view.y` and `view.height` are
the arguments. -/
def BallCollection.new (viewY viewHeight : α) : BallCollection α :=
  { ptop := viewY, pbottom := viewY + viewHeight,
    top := viewY + 20, bottom := viewY + viewHeight, ground := viewY + viewHeight + 40,
    hasDrop := false, hasScore := false,
    count := 0, accel := 0, half := 0, stage := 0, scale := 1, stock := [] }

/-- `BallCollection.getVelocity(y)` (lines 155-162). -/
def BallCollection.getVelocity (M : JSMath α) (o : BallCollection α) (y : α) : α :=
  let height := y - o.top
  if height < 0 then 0
  else
    let time := M.sqrt (height / o.half)
    o.half * (1 - 2 * time)

/-- `BallCollection.#setSize(stage)` (lines 183-188). -/
def BallCollection.setSize [FloorRing α] (o : BallCollection α) (stage : Nat) :
    BallCollection α :=
  let scale : α := (((⌈(stage : α) / 3⌉ : ℤ) : α) + 2) / 4
  { o with stage := stage, scale := scale,
           top := o.ptop * scale + 20, bottom := o.pbottom * max 1 scale }

/-- The loop of `#setBalls` (lines 196-199): `n` iterations remain, `i` is the
loop counter.  Reading `#stock[start + i]` beyond the array raises. -/
def BallCollection.setBallsLoop (launcher dx dy : α) (start : Nat) :
    Nat → Nat → α → List (BallAnimator α) → Option (List (BallAnimator α))
  | 0, _, _, stock => some stock
  | n + 1, i, dir, stock =>
    match stock[start + i]? with
    | none => none
    | some b =>
      BallCollection.setBallsLoop launcher dx dy start n (i + 1) (-dir)
        (stock.set (start + i) (b.setup (30 * dir) launcher (dx * dir) dy (48 * i)))

/-- `BallCollection.#setBalls(start, count)` (lines 191-200). -/
def BallCollection.setBalls (M : JSMath α) (o : BallCollection α) (start count : Nat) :
    Option (BallCollection α) :=
  let launcher := o.bottom + 20
  let dx := -1 / o.scale
  let dy := o.getVelocity M launcher
  match BallCollection.setBallsLoop launcher dx dy start count 0 1 o.stock with
  | none => none
  | some stock => some { o with stock := stock }

/-- Set the side tag of the balls at the given positions (a `forEach` over a
filtered or sliced array of references). -/
def BallCollection.tagAll (d : Direction) (idxs : List Nat) (balls : List (BallAnimator α)) :
    List (BallAnimator α) :=
  idxs.foldl (fun bs i => bs.modify (fun b => { b with direction := d }) i) balls

/-- Positions of the balls satisfying `p` (an array made by `filter`, whose
entries are references into `balls`). -/
def BallCollection.indicesOf (p : BallAnimator α → Bool) (balls : List (BallAnimator α)) :
    List Nat :=
  (balls.enum.filter (fun elem => p elem.2)).map Prod.fst

/-- The body of `#setDirections` (lines 203-222) on the array
`balls = #stock.slice(0, count)`.  `slice(0, diff)` truncates a fractional
`diff`, so the number of re-tagged balls is the natural-number quotient. -/
def BallCollection.directed (count : Nat) (balls : List (BallAnimator α)) :
    List (BallAnimator α) :=
  if count % 2 = 1 then
    BallCollection.tagAll Direction.cross (List.range balls.length) balls
  else
    let right := BallCollection.indicesOf (fun elem => elem.dx < 0) balls
    let left := BallCollection.indicesOf (fun elem => 0 ≤ elem.dx) balls
    let b1 := BallCollection.tagAll Direction.right right balls
    let b2 := BallCollection.tagAll Direction.left left b1
    if left.length < right.length then
      BallCollection.tagAll Direction.left (right.take ((right.length - left.length) / 2)) b2
    else if right.length < left.length then
      BallCollection.tagAll Direction.right (left.take ((left.length - right.length) / 2)) b2
    else b2

/-- `BallCollection.#setDirections()` (lines 203-222). -/
def BallCollection.setDirections (o : BallCollection α) : BallCollection α :=
  { o with stock := BallCollection.directed o.count (o.stock.take o.count) ++
                      o.stock.drop o.count }

/-- Number of active balls (the first `count` of `#stock`) carrying the tag `d`. -/
def BallCollection.tagged (o : BallCollection α) (d : Direction) : Nat :=
  (o.stock.take o.count).countP (fun b => b.direction = d)

/-- `BallCollection.setupStart(count)` (lines 102-112). -/
def BallCollection.setupStart [FloorRing α] (M : JSMath α) (o : BallCollection α) (count : Nat) :
    Option (BallCollection α) :=
  let o1 := { o with accel := 2 / 10 }
  let o2 := { o1 with half := o1.accel / 2 }
  let o3 := o2.setSize 1
  let o4 := { o3 with count := count }
  let o5 := { o4 with stock := o4.stock ++
                List.replicate (o4.count - o4.stock.length) BallAnimator.fresh }
  match o5.setBalls M 0 o5.count with
  | none => none
  | some o6 => some o6.setDirections

/-- `BallCollection.setupRestart()` (lines 115-118). -/
def BallCollection.setupRestart (M : JSMath α) (o : BallCollection α) :
    Option (BallCollection α) :=
  match o.setBalls M 0 o.count with
  | none => none
  | some o1 => some o1.setDirections

/-- The assignments of `setupSpeed(count)` made before its loop (lines
122-125): the fields of the collection when the loop starts, and so also when
the loop raises. -/
def BallCollection.setupSpeedHead [FloorRing α] (o : BallCollection α) (count : Nat) :
    BallCollection α :=
  let o1 := { o with accel := o.accel + 2 / 10 }
  let o2 := { o1 with half := o1.accel / 2 }
  let o3 := o2.setSize (o2.stage + 1)
  { o3 with count := count }

/-- `BallCollection.setupSpeed(count)` (lines 121-138).  The loop reads
`#stock[i]` for every `i < count`, so it raises exactly when `count` exceeds
the length of `#stock`. -/
def BallCollection.setupSpeed [FloorRing α] (M : JSMath α) (o : BallCollection α) (count : Nat) :
    Option (BallCollection α) :=
  let o4 := o.setupSpeedHead count
  let launcher := o4.bottom + 20
  let dy := o4.getVelocity M launcher
  if o4.stock.length < o4.count then none
  else
    let reset := fun (ball : BallAnimator α) =>
      if 0 < ball.future.length ∧ o4.ground < ball.y then
        { ball with y := launcher, dy := dy }
      else ball
    let o5 := { o4 with stock := (o4.stock.take o4.count).map reset ++ o4.stock.drop o4.count }
    some o5.setDirections

/-- `BallCollection.addBall()` (lines 141-152). -/
def BallCollection.addBall [FloorRing α] (M : JSMath α) (o : BallCollection α) :
    Option (BallCollection α) :=
  let o1 := o.setSize (o.stage + 1)
  let before := o1.count
  let o2 := { o1 with count := o1.count + 1 }
  let o3 := if o2.stock.length < o2.count then
              { o2 with stock := o2.stock ++ [BallAnimator.fresh] }
            else o2
  match o3.setBalls M before 1 with
  | none => none
  | some o4 => some o4.setDirections

/-- `BallCollection.drawNext` (lines 170-173) without the drawing call: every
active ball runs `setNext`; the handler calls are collected in order. -/
def BallCollection.drawNext [FloorRing α] (o : BallCollection α) :
    BallCollection α × List (Event α) :=
  let results := (o.stock.take o.count).map (BallAnimator.setNext o)
  ({ o with stock := results.map Prod.fst ++ o.stock.drop o.count },
    (results.map Prod.snd).flatten)

/-- `n` successive calls of `BallCollection.drawNext`: the collection
afterwards and all handler calls, in order. -/
def BallCollection.ticks [FloorRing α] : Nat → BallCollection α →
    BallCollection α × List (Event α)
  | 0, o => (o, [])
  | n + 1, o =>
    let r := BallCollection.ticks n o
    let r2 := r.1.drawNext
    (r2.1, r.2 ++ r2.2)

/-! ### What a call that raises leaves behind

A `TypeError` does not undo the assignments made before it.  The definitions
below give the collection as the source leaves it when `#setBalls`,
`setupRestart`, `setupSpeed` or `addBall` raises. -/

/-- The stock as the loop of `#setBalls` (lines 196-199) leaves it, also when
it raises on a missing `#stock[start + i]`: the balls set up before that stay
set up. -/
def BallCollection.setBallsLoopLeft (launcher dx dy : α) (start : Nat) :
    Nat → Nat → α → List (BallAnimator α) → List (BallAnimator α)
  | 0, _, _, stock => stock
  | n + 1, i, dir, stock =>
    match stock[start + i]? with
    | none => stock
    | some b =>
      BallCollection.setBallsLoopLeft launcher dx dy start n (i + 1) (-dir)
        (stock.set (start + i) (b.setup (30 * dir) launcher (dx * dir) dy (48 * i)))

/-- The collection left by a call of `setupRestart()` (lines 115-118) that
raises in `#setBalls`; `#setDirections` is not reached. -/
def BallCollection.setupRestartLeft (M : JSMath α) (o : BallCollection α) : BallCollection α :=
  { o with stock := (BallCollection.setBallsLoopLeft (o.bottom + 20) (-1 / o.scale)
      (o.getVelocity M (o.bottom + 20)) 0 o.count 0 1 o.stock) }

/-- The collection left by a call of `setupSpeed(count)` (lines 121-138) that
raises, which it does when `count` exceeds the length of `#stock`: the
assignments of lines 122-125 are made and the loop has visited every allocated
ball before it reads the missing one; `#setDirections` is not reached. -/
def BallCollection.setupSpeedLeft [FloorRing α] (M : JSMath α) (o : BallCollection α)
    (count : Nat) : BallCollection α :=
  let o4 := o.setupSpeedHead count
  let launcher := o4.bottom + 20
  let dy := o4.getVelocity M launcher
  let reset := fun (ball : BallAnimator α) =>
    if 0 < ball.future.length ∧ o4.ground < ball.y then
      { ball with y := launcher, dy := dy }
    else ball
  { o4 with stock := o4.stock.map reset }

/-- The collection left by a call of `addBall()` (lines 141-152) that raises in
`#setBalls(before, 1)`: the size is set, `count` is incremented and a ball has
been pushed if one was missing, but no ball has been set up. -/
def BallCollection.addBallLeft [FloorRing α] (o : BallCollection α) : BallCollection α :=
  let o1 := o.setSize (o.stage + 1)
  let o2 := { o1 with count := o1.count + 1 }
  if o2.stock.length < o2.count then
    { o2 with stock := o2.stock ++ [BallAnimator.fresh] }
  else o2

/-- Positions in `#stock` of the balls left without `setup` by a call of
`addBall()` that raises.  The call raises at line 197 exactly when `#stock` is
shorter than `count` on entry; the ball pushed by line 148 then sits at the old
length of `#stock`, and `#setBalls` raises before any `setup`. -/
def BallCollection.addBallBlank (o : BallCollection α) : List Nat :=
  if o.stock.length < o.count then [o.stock.length] else []

/-- `BallCollection.drawNext` (lines 170-173) when the balls at the positions
`blank` of `#stock` were constructed but never set up.  The `future` of such a
ball is undefined, so its `setNext` raises at line 21 (`this.future.length`) as
soon as the ball is among `#stock.slice(0, count)`. -/
def BallCollection.drawNextLeft [FloorRing α] (o : BallCollection α) (blank : List Nat) :
    Option (BallCollection α × List (Event α)) :=
  if blank.any (fun i => decide (i < o.count ∧ i < o.stock.length)) then none
  else some o.drawNext

/-- `BallCollection.getFirstBall()` (lines 176-180); the ball is returned as
its position in `#stock`.  `Array.prototype.sort` is stable, as is insertion
sort. -/
def BallCollection.getFirstBall (o : BallCollection α) : Option Nat :=
  let balls := (o.stock.take o.count).enum.filter (fun elem => elem.2.future.length = 0)
  let sorted := balls.insertionSort (fun a b => a.2.dy ≤ b.2.dy)
  sorted.getLast?.map Prod.fst

end Definitions

/-! ## ArmAnimator -/

/-- The attributes `cx`, `cy`, `rx`, `ry` of the SVG ellipse given to an arm. -/
structure Ellipse (α : Type) where
  cx : α
  cy : α
  rx : α
  ry : α

/-- The pair `[ hand, elbow ]`. -/
structure Pose (α : Type) where
  hand : DOMPoint α
  elbow : DOMPoint α

/-- Fields of an `ArmAnimator`; `direction` is `none` for the empty string the
constructor assigns, and `another` is kept by the `ArmCollection`. -/
structure ArmAnimator (α : Type) where
  ellipse : Ellipse α
  home : Pose α
  direction : Option Direction
  current : Pose α
  future : List (DOMPoint α)
  lock : Option Nat

/-- The two arms of an `ArmCollection`. -/
inductive Side where
  | right
  | left
  deriving DecidableEq, Repr

/-- Fields of an `ArmCollection`; `prev` is the private `#prev`. -/
structure ArmCollection (α : Type) where
  right : ArmAnimator α
  left : ArmAnimator α
  prev : Option Side
  orbits : List (List (DOMPoint α))

/-- Fields of a `MotionCreator`. -/
structure MotionCreator (α : Type) where
  balls : BallCollection α
  arms : ArmCollection α

section ArmDefinitions

variable {α : Type} [LinearOrderedField α]

/-- `Math.sign`. -/
def sign (v : α) : α := if 0 < v then 1 else if v < 0 then -1 else 0

/-- The browser call `isPointInFill` for an untransformed ellipse: the closed
region `(x - cx)^2 / rx^2 + (y - cy)^2 / ry^2 ≤ 1`, written without division. -/
def Ellipse.isPointInFill (e : Ellipse α) (x y : α) : Bool :=
  decide ((x - e.cx) ^ 2 * e.ry ^ 2 + (y - e.cy) ^ 2 * e.rx ^ 2 ≤ e.rx ^ 2 * e.ry ^ 2)

/-- `new ArmAnimator(ellipse, hand, elbow)` (lines 232-242). -/
def ArmAnimator.new (ellipse : Ellipse α) (hand elbow : DOMPoint α) : ArmAnimator α :=
  { ellipse := ellipse, home := ⟨hand, elbow⟩, direction := none,
    current := ⟨hand, elbow⟩, future := [], lock := none }

/-- `ArmAnimator.setup()` (lines 245-249). -/
def ArmAnimator.setup (arm : ArmAnimator α) : ArmAnimator α :=
  { arm with current := arm.home, future := [], lock := none }

/-- `ArmAnimator.setFuture(points)` (lines 277-282) for an array `points`. -/
def ArmAnimator.setFuture (arm : ArmAnimator α) (points : List (DOMPoint α)) : ArmAnimator α :=
  { arm with future := points }

/-- `ArmAnimator.#getElbow(hand)` (lines 285-318). -/
def ArmAnimator.getElbow (M : JSMath α) (e : Ellipse α) (hand : DOMPoint α) : DOMPoint α :=
  if e.isPointInFill hand.x hand.y = true then
    DOMPoint.xy hand.x hand.y
  else
    let hx := hand.x - e.cx
    let hy := hand.y - e.cy
    let ex : α :=
      if hx = 0 then 0
      else hx * e.rx * e.ry / M.sqrt (hx * hx * e.ry * e.ry + hy * hy * e.rx * e.rx)
    let ey : α :=
      if hx = 0 then sign hy * e.ry
      else hy / hx * ex
    DOMPoint.xy (ex + e.cx) (ey + e.cy)

/-- `ArmAnimator.setNext()` (lines 252-274) for the arm `arm` whose paired arm
is `another`; the locked ball lives in the collection `o`.  Reading the side
tag of a `null` lock raises. -/
def ArmAnimator.setNext (M : JSMath α) (arm another : ArmAnimator α) (o : BallCollection α) :
    Option (ArmAnimator α × BallCollection α) :=
  match arm.future with
  | [] => some (arm, o)
  | point :: rest =>
    let hand := DOMPoint.xy (point.x + 0) (point.y + 10)
    let arm1 := { arm with future := rest,
                           current := ⟨hand, ArmAnimator.getElbow M arm.ellipse hand⟩ }
    if 0 < rest.length then some (arm1, o)
    else
      match arm1.lock with
      | none => none
      | some i =>
        match o.stock[i]? with
        | none => none
        | some ball =>
          let home := if some ball.direction = arm1.direction then arm1.home else another.home
          let ball1 := { ball with dx := (home.hand.x - ball.x) * max 1 (o.scale / 2) / 100 }
          let ball2 := { ball1 with dy := o.getVelocity M ball1.y }
          some ({ arm1 with lock := none }, { o with stock := o.stock.set i ball2 })

/-! ## ArmCollection -/

/-- One orbit of the constructor loop (lines 340-348), for the index `i`. -/
def ArmCollection.orbit (M : JSMath α) (i : Nat) : List (DOMPoint α) :=
  let div := (5 - i) * 4
  let delta := M.pi / (div : α)
  (List.range (div + 1)).map (fun (j : Nat) =>
    let x := 1 / 2 * M.cos (delta * (j : α))
    let y := 35 / 100 * M.sin (delta * (j : α))
    DOMPoint.xy (1 / 2 - x) y)

/-- `new ArmCollection(right, left)` (lines 330-350). -/
def ArmCollection.new (M : JSMath α) (right left : ArmAnimator α) : ArmCollection α :=
  { right := { right with direction := some Direction.right },
    left := { left with direction := some Direction.left },
    prev := none,
    orbits := (List.range 5).map (ArmCollection.orbit M) }

/-- The arm on the given side. -/
def ArmCollection.arm (c : ArmCollection α) : Side → ArmAnimator α
  | Side.right => c.right
  | Side.left => c.left

/-- The paired side (the field `another`, lines 335-336). -/
def Side.another : Side → Side
  | Side.right => Side.left
  | Side.left => Side.right

/-- Replace the arm on the given side. -/
def ArmCollection.setSide (c : ArmCollection α) (s : Side) (a : ArmAnimator α) :
    ArmCollection α :=
  match s with
  | Side.right => { c with right := a }
  | Side.left => { c with left := a }

/-- `ArmCollection.setup()` (lines 353-356). -/
def ArmCollection.setup (c : ArmCollection α) : ArmCollection α :=
  { c with right := c.right.setup, left := c.left.setup }

/-- `ArmCollection.drawNext` (lines 364-368) without the drawing call. -/
def ArmCollection.drawNext (M : JSMath α) (c : ArmCollection α) (o : BallCollection α) :
    Option (ArmCollection α × BallCollection α) :=
  match ArmAnimator.setNext M c.right c.left o with
  | none => none
  | some (r, o1) =>
    let c1 := { c with right := r }
    match ArmAnimator.setNext M c1.left c1.right o1 with
    | none => none
    | some (l, o2) => some ({ c1 with left := l }, o2)

/-- The choice of the arm in `setArm` (lines 373-386): the chosen side and the
value of `factor`, or `none` when both arms are busy. -/
def ArmCollection.choose (c : ArmCollection α) (ball : BallAnimator α) : Option (Side × α) :=
  let side := if ball.x < 0 then Side.right else Side.left
  if 0 < (c.arm side).future.length then
    if 0 < (c.arm side.another).future.length then none
    else some (side.another, 2)
  else some (side, 1)

/-- The loop building `first` (lines 403-407): the points pushed and the final
values of `x` and `y`. -/
def ArmCollection.firstLoop (dx dy : α) : Nat → α → α → List (DOMPoint α) × α × α
  | 0, x, y => ([], x, y)
  | n + 1, x, y =>
    let r := ArmCollection.firstLoop dx dy n (x + dx) (y + dy)
    (DOMPoint.xy (x + dx) (y + dy) :: r.1, r.2)

/-- `ArmCollection.setArm(ball, count)` (lines 371-419); the ball is given by
its position `bi` in the stock of `o` (a position outside the stock denotes no
ball and gives `none`).  When both arms are busy nothing is changed.
`Math.max(1, 6 - count)` is computed with truncated subtraction, which agrees
with the source because the maximum with `1` is taken.  Calling `map` on an
orbit that does not exist (`5 - delay < 0`) raises. -/
def ArmCollection.setArm (c : ArmCollection α) (o : BallCollection α) (bi count : Nat) :
    Option (ArmCollection α × BallCollection α) :=
  match o.stock[bi]? with
  | none => none
  | some ball =>
    match c.choose ball with
    | none => some (c, o)
    | some (side, factor) =>
      let alter : α := if some side ≠ c.prev then 1 else 0
      let arm := { c.arm side with lock := some bi }
      let delay : Nat := max 1 (6 - count)
      let point := ball.getPosition o (delay : α)
      let hand := arm.current.hand
      let dx := (point.x - hand.x) / (delay : α)
      let dy := (point.y - hand.y) / (delay : α)
      let loop := ArmCollection.firstLoop dx dy delay hand.x hand.y
      let first := loop.1
      let x := loop.2.1
      let y := loop.2.2
      let home := (c.arm side.another).home.hand
      let mx := (home.x - point.x) / 3
      let my := |mx|
      if 5 < delay then none
      else
        match c.orbits[5 - delay]? with
        | none => none
        | some orbit =>
          let follow := orbit.map (fun elem =>
            (⟨x + mx * elem.x, y + my * elem.y, factor, alter⟩ : DOMPoint α))
          let arm1 := arm.setFuture (first ++ follow)
          let ball1 := ball.setFuture (List.replicate first.length none ++ follow.map some)
          some ({ c.setSide side arm1 with prev := some side },
                { o with stock := o.stock.set bi ball1 })

/-! ## MotionCreator -/

/-- `new MotionCreator(view, right, left)` (lines 427-430). -/
def MotionCreator.new (M : JSMath α) (viewY viewHeight : α) (right left : ArmAnimator α) :
    MotionCreator α :=
  { balls := BallCollection.new viewY viewHeight, arms := ArmCollection.new M right left }

/-- `MotionCreator.setup(count, follow)` (lines 433-444); `count = none` is a
call without a numeric count. -/
def MotionCreator.setup [FloorRing α] (M : JSMath α) (m : MotionCreator α)
    (count : Option Nat) (follow : Bool) : Option (MotionCreator α) :=
  let balls :=
    match count with
    | none => m.balls.setupRestart M
    | some n => if follow = true then m.balls.setupSpeed M n else m.balls.setupStart M n
  match balls with
  | none => none
  | some b => some { balls := b, arms := m.arms.setup }

/-- `MotionCreator.addBall()` (lines 447-449). -/
def MotionCreator.addBall [FloorRing α] (M : JSMath α) (m : MotionCreator α) :
    Option (MotionCreator α) :=
  match m.balls.addBall M with
  | none => none
  | some b => some { m with balls := b }

/-- `MotionCreator.drawNext` (lines 463-466) without the drawing calls: the
state after one tick and the handler calls made during it. -/
def MotionCreator.drawNext [FloorRing α] (M : JSMath α) (m : MotionCreator α) :
    Option (MotionCreator α × List (Event α)) :=
  let r := m.balls.drawNext
  match m.arms.drawNext M r.1 with
  | none => none
  | some (arms, balls) => some ({ balls := balls, arms := arms }, r.2)

/-- `MotionCreator.moveArm()` (lines 469-475). -/
def MotionCreator.moveArm (m : MotionCreator α) : Option (MotionCreator α) :=
  match m.balls.getFirstBall with
  | none => some m
  | some bi =>
    match m.arms.setArm m.balls bi m.balls.count with
    | none => none
    | some (arms, balls) => some { balls := balls, arms := arms }

/-- `MotionCreator.setEvent(name, callback)` (lines 478-482) for a callable
`callback`; only the names `drop` and `score` are ever looked up. -/
def MotionCreator.setEvent (m : MotionCreator α) (name : String) : MotionCreator α :=
  if name = "drop" then { m with balls := { m.balls with hasDrop := true } }
  else if name = "score" then { m with balls := { m.balls with hasScore := true } }
  else m

end ArmDefinitions

/-! ## Reachable states and the lock invariant -/

/-- Length of the queue of the ball at position `i`, if there is such a ball. -/
def BallCollection.queueLength {α : Type} (o : BallCollection α) (i : Nat) : Option Nat :=
  (o.stock[i]?).map (fun b => b.future.length)

/-- States reached from `m0` by orchestrator calls that all complete: `setup`,
`addBall`, `drawNext` (one tick), `moveArm` and `setEvent`.  A call that raises
has no successor here; the state it leaves behind is given by the `Left`
definitions and is not covered by this relation. -/
inductive Reachable {α : Type} [LinearOrderedField α] [FloorRing α] (M : JSMath α)
    (m0 : MotionCreator α) : MotionCreator α → Prop where
  | init : Reachable M m0 m0
  | setup {m m' : MotionCreator α} (count : Option Nat) (follow : Bool) :
      Reachable M m0 m → m.setup M count follow = some m' → Reachable M m0 m'
  | addBall {m m' : MotionCreator α} :
      Reachable M m0 m → m.addBall M = some m' → Reachable M m0 m'
  | drawNext {m m' : MotionCreator α} {events : List (Event α)} :
      Reachable M m0 m → m.drawNext M = some (m', events) → Reachable M m0 m'
  | moveArm {m m' : MotionCreator α} :
      Reachable M m0 m → m.moveArm = some m' → Reachable M m0 m'
  | setEvent {m : MotionCreator α} (name : String) :
      Reachable M m0 m → Reachable M m0 (m.setEvent name)

/-- An arm that holds a lock holds it on an active ball whose queue is as long
as the arm's own, non-empty, queue. -/
def LockInv {α : Type} (m : MotionCreator α) : Prop :=
  ∀ (side : Side) (i : Nat), (m.arms.arm side).lock = some i →
    i < m.balls.count ∧ m.balls.queueLength i = some (m.arms.arm side).future.length ∧
      0 < (m.arms.arm side).future.length

/-- An arm whose queue is non-empty holds a lock. -/
def BusyLocked {α : Type} (m : MotionCreator α) : Prop :=
  ∀ side : Side, (m.arms.arm side).future ≠ [] → ∃ i, (m.arms.arm side).lock = some i

/-- The two arms do not hold a lock on the same ball. -/
def LocksDistinct {α : Type} (m : MotionCreator α) : Prop :=
  ∀ i : Nat, ¬ (m.arms.right.lock = some i ∧ m.arms.left.lock = some i)

/-! ## Concrete data over `ℚ` -/

/-- A computable `Math` over `ℚ`: `sqrt` is exact on squares of rationals,
`cos`, `sin` and `pi` are rational approximations. -/
def ratMath : JSMath ℚ :=
  { sqrt := fun q => (Nat.sqrt q.num.toNat : ℚ) / (Nat.sqrt q.den : ℚ),
    cos := fun t => 1 - t ^ 2 / 2,
    sin := fun t => t,
    pi := 22 / 7 }

/-- A pool as `setupStart` configures its constants: `accel = 0.2`,
`half = 0.1`, top line at `20`. -/
def samplePool : BallCollection ℚ :=
  { BallCollection.new 0 300 with accel := 2 / 10, half := 1 / 10 }

/-- A ball at rest at the origin drifting to the right. -/
def sampleBall : BallAnimator ℚ :=
  { x := 0, y := 0, dx := 1, dy := 0, future := [], direction := Direction.cross }

/-- A unit-free reach ellipse centred at the origin with radii `3` and `4`. -/
def sampleEllipse : Ellipse ℚ := { cx := 0, cy := 0, rx := 3, ry := 4 }

/-- A pool holding the single active ball `b`, with both handlers registered. -/
def poolOf (b : BallAnimator ℚ) : BallCollection ℚ :=
  { samplePool with count := 1, stock := [b], hasDrop := true, hasScore := true }

/-- Two arms at rest, hands at `(-50, 280)` and `(50, 280)`. -/
def sampleArms : ArmCollection ℚ :=
  ArmCollection.new ratMath
    (ArmAnimator.new sampleEllipse (DOMPoint.xy (-50) 280) (DOMPoint.xy (-40) 250))
    (ArmAnimator.new sampleEllipse (DOMPoint.xy 50 280) (DOMPoint.xy 40 250))

/-- The left arm of `sampleArms` holding ball `0` with the given queue. -/
def busyLeft (queue : List (DOMPoint ℚ)) : ArmAnimator ℚ :=
  { sampleArms.left with lock := some 0, future := queue }

/-- The sample arms with the left arm busy with one waypoint. -/
def leftBusyArms : ArmCollection ℚ :=
  { sampleArms with left := busyLeft [DOMPoint.xy 1 2] }

/-- The sample arms with both arms busy with one waypoint each. -/
def bothBusyArms : ArmCollection ℚ :=
  { sampleArms with left := busyLeft [DOMPoint.xy 1 2],
                    right := { sampleArms.right with lock := some 0, future := [DOMPoint.xy 3 4] } }

/-- An orchestrator constructed from the view `y = 0`, `height = 300` and two
fresh arms. -/
def sampleStart : MotionCreator ℚ :=
  MotionCreator.new ratMath 0 300
    (ArmAnimator.new sampleEllipse (DOMPoint.xy (-50) 280) (DOMPoint.xy (-40) 250))
    (ArmAnimator.new sampleEllipse (DOMPoint.xy 50 280) (DOMPoint.xy 40 250))

/-- A pool constructed from the view `y = 0`, `height = 300` and started with
`setupStart(3)`. -/
def threeBalls : Option (BallCollection ℚ) :=
  (BallCollection.new (0 : ℚ) 300).setupStart ratMath 3

/-! ## IEEE double arithmetic

The numbers of the source are IEEE 754 binary64 values.  A finite double is a
rational, and each arithmetic operation returns the exact result rounded to the
nearest double, ties to even.  Overflow, underflow, signed zeros and `NaN` are
not represented; the values used below stay far inside the normal range. -/

/-- Two to the power `k` as a rational. -/
def Double.pow2 (k : Int) : ℚ :=
  if 0 ≤ k then ((2 ^ k.toNat : Nat) : ℚ) else 1 / ((2 ^ (-k).toNat : Nat) : ℚ)

/-- The number of binary digits of `n`, by halving at most `fuel` times. -/
def Double.bitsLoop : Nat → Nat → Nat
  | 0, _ => 0
  | fuel + 1, n => if n = 0 then 0 else Double.bitsLoop fuel (n / 2) + 1

/-- The number of binary digits of `n`. -/
def Double.bits (n : Nat) : Nat := Double.bitsLoop n n

/-- The exponent `e` with `2 ^ e ≤ a < 2 ^ (e + 1)` of a positive rational. -/
def Double.exponent (a : ℚ) : Int :=
  let e0 : Int := (Double.bits a.num.natAbs : Int) - (Double.bits a.den : Int)
  if Double.pow2 e0 ≤ a then e0 else e0 - 1

/-- Rounding to the nearest number with a significand of 53 bits, ties to even. -/
def Double.round (q : ℚ) : ℚ :=
  if q = 0 then 0
  else
    let a := |q|
    let e := Double.exponent a
    let s := a * Double.pow2 (52 - e)
    let f : Int := ⌊s⌋
    let r := s - (f : ℚ)
    let m : Int :=
      if r < 1 / 2 then f
      else if 1 / 2 < r then f + 1
      else if f % 2 = 0 then f else f + 1
    (if q < 0 then -1 else 1) * (m : ℚ) * Double.pow2 (e - 52)

/-- The operator `+` on doubles. -/
def Double.add (a b : ℚ) : ℚ := Double.round (a + b)

/-- The operator `-` on doubles. -/
def Double.sub (a b : ℚ) : ℚ := Double.round (a - b)

/-- The operator `*` on doubles. -/
def Double.mul (a b : ℚ) : ℚ := Double.round (a * b)

/-- The operator `/` on doubles. -/
def Double.div (a b : ℚ) : ℚ := Double.round (a / b)

/-- Integer square root: the bits of the root are decided from the top. -/
def Double.isqrtLoop (n : Nat) : Nat → Nat → Nat
  | 0, res => res
  | bit + 1, res =>
    let cand := res + 2 ^ bit
    Double.isqrtLoop n bit (if cand * cand ≤ n then cand else res)

/-- The largest `s` with `s * s ≤ n`. -/
def Double.isqrt (n : Nat) : Nat := Double.isqrtLoop n (Double.bits n / 2 + 1) 0

/-- `Math.sqrt` on doubles: the correctly rounded square root.  The argument is
scaled so that the integer root `s` has more than 55 bits; an inexact root lies
strictly between `s` and `s + 1`, where it rounds as `s + 1/2` does. -/
def Double.sqrt (q : ℚ) : ℚ :=
  if q ≤ 0 then 0
  else
    let k : Int := 56 - Double.exponent q / 2
    let scaled := q * Double.pow2 (2 * k)
    let n : Nat := (⌊scaled⌋ : Int).toNat
    let s := Double.isqrt n
    let exact : Bool := decide ((s * s : Nat) = n ∧ (n : ℚ) = scaled)
    Double.round (((s : ℚ) + (if exact then 0 else 1 / 2)) * Double.pow2 (-k))

/-- `BallAnimator.getPosition(gap)` (lines 64-75) in double arithmetic. -/
def Double.getPosition (o : BallCollection ℚ) (b : BallAnimator ℚ) (gap : ℚ) : Position ℚ :=
  if gap = 0 then
    { x := b.x, y := b.y, dy := b.dy }
  else
    { x := Double.add b.x (Double.mul b.dx gap),
      y := Double.add b.y (Double.add (Double.mul b.dy gap)
        (Double.mul (Double.mul o.half gap) (Double.sub gap 1))),
      dy := Double.add b.dy (Double.mul o.accel gap) }

/-- The free-fall branch of `setNext` (lines 39-42) in double arithmetic. -/
def Double.step (o : BallCollection ℚ) (b : BallAnimator ℚ) : BallAnimator ℚ :=
  let next := Double.getPosition o b 1
  { b with x := next.x, y := next.y, dy := next.dy }

/-- `BallCollection.getVelocity(y)` (lines 155-162) in double arithmetic. -/
def Double.getVelocity (o : BallCollection ℚ) (y : ℚ) : ℚ :=
  let height := Double.sub y o.top
  if height < 0 then 0
  else
    let time := Double.sqrt (Double.div height o.half)
    Double.mul o.half (Double.sub 1 (Double.mul 2 time))

/-- `ArmAnimator.#getElbow(hand)` (lines 285-318) in double arithmetic. -/
def Double.getElbow (e : Ellipse ℚ) (hand : DOMPoint ℚ) : DOMPoint ℚ :=
  if e.isPointInFill hand.x hand.y = true then
    DOMPoint.xy hand.x hand.y
  else
    let hx := Double.sub hand.x e.cx
    let hy := Double.sub hand.y e.cy
    let ex : ℚ :=
      if hx = 0 then 0
      else Double.div (Double.mul (Double.mul hx e.rx) e.ry)
        (Double.sqrt (Double.add
          (Double.mul (Double.mul (Double.mul hx hx) e.ry) e.ry)
          (Double.mul (Double.mul (Double.mul hy hy) e.rx) e.rx)))
    let ey : ℚ :=
      if hx = 0 then Double.mul (sign hy) e.ry
      else Double.mul (Double.div hy hx) ex
    DOMPoint.xy (Double.add ex e.cx) (Double.add ey e.cy)

/-- The loop building `first` (lines 403-407) in double arithmetic. -/
def Double.firstLoop (dx dy : ℚ) : Nat → ℚ → ℚ → List (DOMPoint ℚ)
  | 0, _, _ => []
  | n + 1, x, y =>
    DOMPoint.xy (Double.add x dx) (Double.add y dy)
      :: Double.firstLoop dx dy n (Double.add x dx) (Double.add y dy)

/-- The array `first` of `setArm` (lines 396-407) in double arithmetic, for a
ball, the current hand of the chosen arm and the delay. -/
def Double.first (o : BallCollection ℚ) (ball : BallAnimator ℚ) (hand : DOMPoint ℚ)
    (delay : Nat) : List (DOMPoint ℚ) :=
  let point := Double.getPosition o ball (delay : ℚ)
  let dx := Double.div (Double.sub point.x hand.x) (delay : ℚ)
  let dy := Double.div (Double.sub point.y hand.y) (delay : ℚ)
  Double.firstLoop dx dy delay hand.x hand.y

/-- The constants of a pool after `setupStart` on the view `y = 0`,
`height = 300`, as doubles: `accel = 0.2`, `half = accel / 2`, `top = 20`. -/
def doublePool : BallCollection ℚ :=
  { BallCollection.new 0 300 with
    accel := Double.round (2 / 10), half := Double.div (Double.round (2 / 10)) 2 }

/-- The ball launched by `setupStart(1)` on that view, in double arithmetic:
`x = 30`, `y = 320`, `dx = -1 / 0.75`, `dy = getVelocity(320)`. -/
def launchedBall : BallAnimator ℚ :=
  { x := 30, y := 320, dx := Double.div (-1) (3 / 4),
    dy := Double.getVelocity doublePool 320, future := [], direction := Direction.cross }

/-- The run `setup(3)`, `moveArm()`: the left arm holds ball `0`. -/
def lockedLeft : Option (MotionCreator ℚ) :=
  (sampleStart.setup ratMath (some 3) false).bind MotionCreator.moveArm

/-- The state left by `setup(5, true)` after that run: `setupSpeed(5)` raises,
so `arms.setup()` is not reached and the arms keep their queues and locks. -/
def afterFailedSpeedUp : Option (MotionCreator ℚ) :=
  lockedLeft.map (fun m => { m with balls := m.balls.setupSpeedLeft ratMath 5 })

/-- The state left by `setup()` after that: `setupRestart()` raises in
`#setBalls` once the three allocated balls are reset; the arms are untouched. -/
def afterFailedRestart : Option (MotionCreator ℚ) :=
  afterFailedSpeedUp.map (fun m => { m with balls := m.balls.setupRestartLeft ratMath })

/-- The run `setup(1)`, `moveArm()`: the first assignment. -/
def afterFirstAssignment : Option (MotionCreator ℚ) :=
  (sampleStart.setup ratMath (some 1) false).bind MotionCreator.moveArm

/-- The run continued by `setup()`: the round is restarted, both arms are idle. -/
def afterRestart : Option (MotionCreator ℚ) :=
  afterFirstAssignment.bind (fun m => m.setup ratMath none false)

/-- The run continued by `moveArm()`: the second assignment. -/
def afterSecondAssignment : Option (MotionCreator ℚ) :=
  afterRestart.bind MotionCreator.moveArm

section Theorems

variable {α : Type} [LinearOrderedField α]

/-! ## Trajectory model -/

theorem step_dx (o : BallCollection α) (b : BallAnimator α) (n : Nat) :
    ((BallAnimator.step o)^[n] b).dx = b.dx := by
  induction n generalizing b with
  | zero => rfl
  | succ k ih => rw [Function.iterate_succ_apply, ih]; rfl

theorem step_future (o : BallCollection α) (b : BallAnimator α) (n : Nat) :
    ((BallAnimator.step o)^[n] b).future = b.future := by
  induction n generalizing b with
  | zero => rfl
  | succ k ih => rw [Function.iterate_succ_apply, ih]; rfl

/-- Closed form of `n` successive one-tick advances. -/
theorem step_iterate (o : BallCollection α) (b : BallAnimator α) (n : Nat)
    (hhalf : o.accel = 2 * o.half) :
    ((BallAnimator.step o)^[n] b).x = b.x + b.dx * n ∧
    ((BallAnimator.step o)^[n] b).y = b.y + (b.dy * n + o.half * n * (n - 1)) ∧
    ((BallAnimator.step o)^[n] b).dy = b.dy + o.accel * n := by
  induction n with
  | zero => simp
  | succ k ih =>
    obtain ⟨hx, hy, hdy⟩ := ih
    have hd := step_dx o b k
    rw [Function.iterate_succ_apply']
    simp only [BallAnimator.step, BallAnimator.getPosition, one_ne_zero, if_false,
      hx, hy, hdy, hd]
    push_cast
    rw [hhalf]
    refine ⟨by ring, by ring, by ring⟩

theorem getPosition_nat (o : BallCollection α) (b : BallAnimator α) (n : Nat) :
    (b.getPosition o (n : α)).x = b.x + b.dx * n ∧
    (b.getPosition o (n : α)).y = b.y + (b.dy * n + o.half * n * (n - 1)) ∧
    (b.getPosition o (n : α)).dy = b.dy + o.accel * n := by
  unfold BallAnimator.getPosition
  by_cases h0 : (n : α) = 0
  · simp [h0]
  · simp [h0]

/-- C1: with `half = accel / 2`, applying the one-tick advance `getPosition(1)`
`n` times, adopting `x`, `y` and `dy` after each step, gives the same `x`, `y`
and `dy` as the single call `getPosition(n)`. -/
theorem getPosition_iterate (o : BallCollection α) (b : BallAnimator α) (n : Nat)
    (hhalf : o.half = o.accel / 2) :
    ((BallAnimator.step o)^[n] b).x = (b.getPosition o (n : α)).x ∧
    ((BallAnimator.step o)^[n] b).y = (b.getPosition o (n : α)).y ∧
    ((BallAnimator.step o)^[n] b).dy = (b.getPosition o (n : α)).dy := by
  have h2 : o.accel = 2 * o.half := by rw [hhalf]; ring
  obtain ⟨hx, hy, hdy⟩ := step_iterate o b n h2
  obtain ⟨gx, gy, gdy⟩ := getPosition_nat o b n
  exact ⟨hx.trans gx.symm, hy.trans gy.symm, hdy.trans gdy.symm⟩

/-- The statement of C1 at the sample pool and ball for three ticks. -/
theorem getPosition_iterate_witness :
    samplePool.half = samplePool.accel / 2 ∧
    ((BallAnimator.step samplePool)^[3] sampleBall).x
      = (sampleBall.getPosition samplePool ((3 : Nat) : ℚ)).x ∧
    ((BallAnimator.step samplePool)^[3] sampleBall).y
      = (sampleBall.getPosition samplePool ((3 : Nat) : ℚ)).y ∧
    ((BallAnimator.step samplePool)^[3] sampleBall).dy
      = (sampleBall.getPosition samplePool ((3 : Nat) : ℚ)).dy :=
  ⟨by norm_num [samplePool, BallCollection.new],
   getPosition_iterate samplePool sampleBall 3 (by norm_num [samplePool, BallCollection.new])⟩

/-- C3: for `half > 0`, `accel = 2 * half` and a launcher at or below the top
line, a ball launched from `launcherY` with `dy = getVelocity(launcherY)` and
advanced by free fall has `y ≥ top` after every number `n` of ticks, and
`y = top` after `n` ticks when `n` equals `sqrt((launcherY - top) / half)`.
The value returned by `Math.sqrt` is assumed to square to its argument. -/
theorem launch_apex_at_top (M : JSMath α) (o : BallCollection α) (b : BallAnimator α)
    (launcherY : α) (n : Nat)
    (hhalf : 0 < o.half) (haccel : o.accel = 2 * o.half) (hlaunch : o.top ≤ launcherY)
    (hsqrt : M.sqrt ((launcherY - o.top) / o.half) * M.sqrt ((launcherY - o.top) / o.half)
      = (launcherY - o.top) / o.half)
    (hy : b.y = launcherY) (hdy : b.dy = o.getVelocity M launcherY) :
    o.top ≤ ((BallAnimator.step o)^[n] b).y ∧
    ((n : α) = M.sqrt ((launcherY - o.top) / o.half) →
      ((BallAnimator.step o)^[n] b).y = o.top) := by
  obtain ⟨-, hyn, -⟩ := step_iterate o b n haccel
  have hne : o.half ≠ 0 := ne_of_gt hhalf
  have hv : b.dy = o.half * (1 - 2 * M.sqrt ((launcherY - o.top) / o.half)) := by
    rw [hdy]
    unfold BallCollection.getVelocity
    have : ¬ (launcherY - o.top < 0) := by linarith
    simp [this]
  set t := M.sqrt ((launcherY - o.top) / o.half) with ht
  have hmul : o.half * (t * t) = launcherY - o.top := by
    rw [hsqrt]; field_simp
  have key : ((BallAnimator.step o)^[n] b).y = o.top + o.half * (((n : α) - t) * ((n : α) - t)) := by
    rw [hyn, hy, hv]
    have : launcherY = o.top + o.half * (t * t) := by linarith
    rw [this]; ring
  constructor
  · rw [key]
    have : 0 ≤ o.half * (((n : α) - t) * ((n : α) - t)) :=
      mul_nonneg hhalf.le (mul_self_nonneg _)
    linarith
  · intro hn
    rw [key, hn]; ring

/-- The statement of C3 for a launcher at `y = 30` under the sample pool
(`top = 20`, `half = 0.1`): the ball stays below the top line for `7` ticks and
is exactly on it after `10` ticks. -/
theorem launch_apex_at_top_witness :
    samplePool.top ≤ ((BallAnimator.step samplePool)^[7]
      { sampleBall with y := 30, dy := samplePool.getVelocity ratMath 30 }).y ∧
    ((BallAnimator.step samplePool)^[10]
      { sampleBall with y := 30, dy := samplePool.getVelocity ratMath 30 }).y
      = samplePool.top := by
  have hs : ratMath.sqrt ((30 - samplePool.top) / samplePool.half) = 10 := by
    have h : ((30 : ℚ) - samplePool.top) / samplePool.half = 100 := by
      norm_num [samplePool, BallCollection.new]
    have h1 : Nat.sqrt 100 = 10 := Nat.sqrt_eq 10
    have h2 : (100 : ℚ).num.toNat = 100 := rfl
    have h3 : (100 : ℚ).den = 1 := rfl
    rw [h]
    simp [ratMath, h1, h2, h3]
  have hsq : ratMath.sqrt ((30 - samplePool.top) / samplePool.half)
      * ratMath.sqrt ((30 - samplePool.top) / samplePool.half)
      = (30 - samplePool.top) / samplePool.half := by
    rw [hs]; norm_num [samplePool, BallCollection.new]
  have hpos : (0 : ℚ) < samplePool.half := by norm_num [samplePool, BallCollection.new]
  have hacc : samplePool.accel = 2 * samplePool.half := by
    norm_num [samplePool, BallCollection.new]
  have htop : samplePool.top ≤ 30 := by norm_num [samplePool, BallCollection.new]
  exact ⟨(launch_apex_at_top ratMath samplePool
      { sampleBall with y := 30, dy := samplePool.getVelocity ratMath 30 } 30 7
      hpos hacc htop hsq rfl rfl).1,
    (launch_apex_at_top ratMath samplePool
      { sampleBall with y := 30, dy := samplePool.getVelocity ratMath 30 } 30 10
      hpos hacc htop hsq rfl rfl).2 (by rw [hs]; norm_num)⟩

/-! ## Reach solver -/

theorem sign_mul_abs (v : α) : sign v * |v| = v := by
  unfold sign
  rcases lt_trichotomy v 0 with hneg | hz | hpos
  · have : ¬ (0 < v) := not_lt.mpr hneg.le
    simp [this, hneg, abs_of_neg hneg]
  · simp [hz]
  · simp [hpos, abs_of_pos hpos]

theorem sign_mul_self (v : α) (hv : v ≠ 0) : sign v * sign v = 1 := by
  unfold sign
  rcases lt_or_gt_of_ne hv with hneg | hpos
  · have : ¬ (0 < v) := not_lt.mpr hneg.le
    simp [this, hneg]
  · simp [hpos]

/-- The branch `hx = 0` of `#getElbow`, in ellipse-centred coordinates. -/
theorem elbow_vertical (hy ry : α) (hry : 0 < ry) (h : ry ^ 2 < hy ^ 2) :
    (sign hy * ry / ry) ^ 2 = 1 ∧ ∃ k : α, 0 < k ∧ k < 1 ∧ sign hy * ry = k * hy := by
  have habs : ry < |hy| := by
    have h2 : |ry| < |hy| := sq_lt_sq.mp h
    rwa [abs_of_pos hry] at h2
  have hypos : 0 < |hy| := lt_trans hry habs
  have hyne : hy ≠ 0 := abs_pos.mp hypos
  refine ⟨?_, ry / |hy|, div_pos hry hypos, (div_lt_one hypos).mpr habs, ?_⟩
  · rw [mul_div_assoc, div_self (ne_of_gt hry), mul_one, sq, sign_mul_self hy hyne]
  · rw [div_mul_eq_mul_div, eq_div_iff (ne_of_gt hypos)]
    calc sign hy * ry * |hy| = ry * (sign hy * |hy|) := by ring
      _ = ry * hy := by rw [sign_mul_abs]

/-- The branch `hx ≠ 0` of `#getElbow`, in ellipse-centred coordinates, with
`s` the value returned by `Math.sqrt`. -/
theorem elbow_oblique (hx hy rx ry s : α) (hrx : 0 < rx) (hry : 0 < ry) (hx0 : hx ≠ 0)
    (hD : rx ^ 2 * ry ^ 2 < hx ^ 2 * ry ^ 2 + hy ^ 2 * rx ^ 2)
    (hs0 : 0 ≤ s) (hs : s * s = hx * hx * ry * ry + hy * hy * rx * rx) :
    (hx * rx * ry / s / rx) ^ 2 + (hy / hx * (hx * rx * ry / s) / ry) ^ 2 = 1 ∧
    ∃ k : α, 0 < k ∧ k < 1 ∧ hx * rx * ry / s = k * hx ∧
      hy / hx * (hx * rx * ry / s) = k * hy := by
  have hDpos : 0 < hx * hx * ry * ry + hy * hy * rx * rx := by
    have : 0 < rx ^ 2 * ry ^ 2 := by positivity
    nlinarith
  have hspos : 0 < s := by
    rcases eq_or_lt_of_le hs0 with hz | hp
    · exfalso
      rw [← hz] at hs
      simp only [mul_zero] at hs
      linarith
    · exact hp
  have hsne : s ≠ 0 := ne_of_gt hspos
  have hrx0 : rx ≠ 0 := ne_of_gt hrx
  have hry0 : ry ≠ 0 := ne_of_gt hry
  have hklt : rx * ry < s := by
    by_contra hcon
    push_neg at hcon
    have h4 : s * s ≤ (rx * ry) * (rx * ry) :=
      mul_le_mul hcon hcon hspos.le (by positivity)
    rw [hs] at h4
    nlinarith
  refine ⟨?_, rx * ry / s, by positivity, (div_lt_one hspos).mpr hklt, ?_, ?_⟩
  · have h5 : hx * rx * ry / s / rx = hx * ry / s := by
      field_simp; ring
    have h6 : hy / hx * (hx * rx * ry / s) / ry = hy * rx / s := by
      field_simp; ring
    rw [h5, h6, div_pow, div_pow, ← add_div, div_eq_one_iff_eq (by positivity), sq s, hs]
    ring
  · field_simp; ring
  · field_simp; ring

/-- C6: for radii `rx > 0`, `ry > 0` and a hand point outside the ellipse, the
elbow computed by `#getElbow` lies on the ellipse boundary and equals
`centre + k * (hand - centre)` for some `0 < k < 1`.  The value returned by
`Math.sqrt` is assumed to be the non-negative root of its argument. -/
theorem getElbow_on_boundary (M : JSMath α) (e : Ellipse α) (hand : DOMPoint α)
    (hrx : 0 < e.rx) (hry : 0 < e.ry)
    (hout : 1 < ((hand.x - e.cx) / e.rx) ^ 2 + ((hand.y - e.cy) / e.ry) ^ 2)
    (hnonneg : 0 ≤ M.sqrt ((hand.x - e.cx) * (hand.x - e.cx) * e.ry * e.ry
      + (hand.y - e.cy) * (hand.y - e.cy) * e.rx * e.rx))
    (hsqrt : M.sqrt ((hand.x - e.cx) * (hand.x - e.cx) * e.ry * e.ry
        + (hand.y - e.cy) * (hand.y - e.cy) * e.rx * e.rx)
      * M.sqrt ((hand.x - e.cx) * (hand.x - e.cx) * e.ry * e.ry
        + (hand.y - e.cy) * (hand.y - e.cy) * e.rx * e.rx)
      = (hand.x - e.cx) * (hand.x - e.cx) * e.ry * e.ry
        + (hand.y - e.cy) * (hand.y - e.cy) * e.rx * e.rx) :
    (((ArmAnimator.getElbow M e hand).x - e.cx) / e.rx) ^ 2
      + (((ArmAnimator.getElbow M e hand).y - e.cy) / e.ry) ^ 2 = 1 ∧
    ∃ k : α, 0 < k ∧ k < 1 ∧
      (ArmAnimator.getElbow M e hand).x = e.cx + k * (hand.x - e.cx) ∧
      (ArmAnimator.getElbow M e hand).y = e.cy + k * (hand.y - e.cy) := by
  have hrx0 : e.rx ≠ 0 := ne_of_gt hrx
  have hry0 : e.ry ≠ 0 := ne_of_gt hry
  have hprod : 0 < e.rx ^ 2 * e.ry ^ 2 := by positivity
  have hD : e.rx ^ 2 * e.ry ^ 2
      < (hand.x - e.cx) ^ 2 * e.ry ^ 2 + (hand.y - e.cy) ^ 2 * e.rx ^ 2 := by
    have h1 := mul_lt_mul_of_pos_right hout hprod
    have h2 : (((hand.x - e.cx) / e.rx) ^ 2 + ((hand.y - e.cy) / e.ry) ^ 2)
          * (e.rx ^ 2 * e.ry ^ 2)
        = (hand.x - e.cx) ^ 2 * e.ry ^ 2 + (hand.y - e.cy) ^ 2 * e.rx ^ 2 := by
      field_simp
    rw [h2] at h1; linarith
  have hfill : e.isPointInFill hand.x hand.y = false := by
    unfold Ellipse.isPointInFill
    rw [decide_eq_false_iff_not, not_le]
    exact hD
  unfold ArmAnimator.getElbow
  simp only [hfill, Bool.false_eq_true, if_false, DOMPoint.xy, add_sub_cancel_right]
  by_cases h0 : hand.x - e.cx = 0
  · simp only [h0, if_true]
    have hy2 : e.ry ^ 2 < (hand.y - e.cy) ^ 2 := by
      have h3 : e.rx ^ 2 * e.ry ^ 2 < e.rx ^ 2 * (hand.y - e.cy) ^ 2 := by
        rw [h0] at hD; nlinarith
      exact lt_of_mul_lt_mul_left h3 (by positivity)
    obtain ⟨h1, k, hk0, hk1, hk⟩ := elbow_vertical (hand.y - e.cy) e.ry hry hy2
    refine ⟨?_, k, hk0, hk1, by simp, ?_⟩
    · rw [h1]; simp [hrx0]
    · rw [hk]; ring
  · simp only [h0, if_false]
    obtain ⟨h1, k, hk0, hk1, hkx, hky⟩ := elbow_oblique (hand.x - e.cx) (hand.y - e.cy)
      e.rx e.ry _ hrx hry h0 hD hnonneg hsqrt
    refine ⟨h1, k, hk0, hk1, ?_, ?_⟩
    · rw [hkx]; ring
    · rw [hky]; ring

/-- The statement of C6 for the hand point `(6, 0)` and the sample ellipse with
radii `3` and `4`, where the root needed is `sqrt 576 = 24`. -/
theorem getElbow_on_boundary_witness :
    (((ArmAnimator.getElbow ratMath sampleEllipse (DOMPoint.xy 6 0)).x - sampleEllipse.cx)
        / sampleEllipse.rx) ^ 2
      + (((ArmAnimator.getElbow ratMath sampleEllipse (DOMPoint.xy 6 0)).y - sampleEllipse.cy)
        / sampleEllipse.ry) ^ 2 = 1 ∧
    ∃ k : ℚ, 0 < k ∧ k < 1 ∧
      (ArmAnimator.getElbow ratMath sampleEllipse (DOMPoint.xy 6 0)).x
        = sampleEllipse.cx + k * ((DOMPoint.xy (6 : ℚ) 0).x - sampleEllipse.cx) ∧
      (ArmAnimator.getElbow ratMath sampleEllipse (DOMPoint.xy 6 0)).y
        = sampleEllipse.cy + k * ((DOMPoint.xy (6 : ℚ) 0).y - sampleEllipse.cy) := by
  have hs : ratMath.sqrt (((DOMPoint.xy (6 : ℚ) 0).x - sampleEllipse.cx)
        * ((DOMPoint.xy (6 : ℚ) 0).x - sampleEllipse.cx) * sampleEllipse.ry * sampleEllipse.ry
      + ((DOMPoint.xy (6 : ℚ) 0).y - sampleEllipse.cy)
        * ((DOMPoint.xy (6 : ℚ) 0).y - sampleEllipse.cy) * sampleEllipse.rx * sampleEllipse.rx)
      = 24 := by
    have h : ((DOMPoint.xy (6 : ℚ) 0).x - sampleEllipse.cx)
        * ((DOMPoint.xy (6 : ℚ) 0).x - sampleEllipse.cx) * sampleEllipse.ry * sampleEllipse.ry
      + ((DOMPoint.xy (6 : ℚ) 0).y - sampleEllipse.cy)
        * ((DOMPoint.xy (6 : ℚ) 0).y - sampleEllipse.cy) * sampleEllipse.rx * sampleEllipse.rx
      = 576 := by norm_num [DOMPoint.xy, sampleEllipse]
    have h1 : Nat.sqrt 576 = 24 := Nat.sqrt_eq 24
    have h2 : (576 : ℚ).num.toNat = 576 := rfl
    have h3 : (576 : ℚ).den = 1 := rfl
    rw [h]
    simp [ratMath, h1, h2, h3]
  exact getElbow_on_boundary ratMath sampleEllipse (DOMPoint.xy 6 0)
    (by norm_num [sampleEllipse]) (by norm_num [sampleEllipse])
    (by norm_num [DOMPoint.xy, sampleEllipse])
    (by rw [hs]; norm_num)
    (by rw [hs]; norm_num [DOMPoint.xy, sampleEllipse])

/-! ## Assignment of an arm -/

theorem firstLoop_length (dx dy : α) (n : Nat) (x y : α) :
    (ArmCollection.firstLoop dx dy n x y).1.length = n := by
  induction n generalizing x y with
  | zero => rfl
  | succ k ih => simp [ArmCollection.firstLoop, ih]

theorem orbit_length (M : JSMath α) (i : Nat) :
    (ArmCollection.orbit M i).length = (5 - i) * 4 + 1 := by
  simp [ArmCollection.orbit]

theorem orbits_getElem? (M : JSMath α) (i : Nat) (hi : i < 5) :
    ((List.range 5).map (ArmCollection.orbit M))[i]? = some (ArmCollection.orbit M i) := by
  rw [List.getElem?_map, List.getElem?_range hi]; rfl

theorem arm_setSide (c : ArmCollection α) (s : Side) (a : ArmAnimator α) :
    (c.setSide s a).arm s = a ∧ (c.setSide s a).arm s.another = c.arm s.another := by
  cases s <;> exact ⟨rfl, rfl⟩

/-- What a call of `setArm` that does not raise has done: either both arms
were busy and nothing changed, or the chosen arm and the ball received their
queues. -/
theorem setArm_some (c c' : ArmCollection α) (o o' : BallCollection α) (bi count : Nat)
    (h : c.setArm o bi count = some (c', o')) :
    ∃ ball, o.stock[bi]? = some ball ∧
      ((c.choose ball = none ∧ c' = c ∧ o' = o) ∨
       ∃ side factor first follow, c.choose ball = some (side, factor) ∧
         first.length = max 1 (6 - count) ∧
         (∃ orbit, c.orbits[5 - max 1 (6 - count)]? = some orbit ∧
            follow.length = orbit.length) ∧
         (∀ p ∈ follow, p.z = factor) ∧
         c' = { (c.setSide side
                  (ArmAnimator.setFuture { c.arm side with lock := some bi } (first ++ follow)))
                with prev := some side } ∧
         o' = { o with stock := (o.stock.set bi
                  (ball.setFuture (List.replicate first.length none ++ follow.map some))) }) := by
  unfold ArmCollection.setArm at h
  cases hb : o.stock[bi]? with
  | none => simp [hb] at h
  | some ball =>
    refine ⟨ball, rfl, ?_⟩
    simp only [hb] at h
    cases hc : c.choose ball with
    | none =>
      simp only [hc, Option.some.injEq, Prod.mk.injEq] at h
      exact Or.inl ⟨rfl, h.1.symm, h.2.symm⟩
    | some sf =>
      obtain ⟨side, factor⟩ := sf
      simp only [hc] at h
      by_cases hd : 5 < max 1 (6 - count)
      · simp [hd] at h
      · simp only [hd, if_false] at h
        cases ho : c.orbits[5 - max 1 (6 - count)]? with
        | none => simp [ho] at h
        | some orbit =>
          simp only [ho, Option.some.injEq, Prod.mk.injEq] at h
          refine Or.inr ⟨side, factor, _, _, rfl, firstLoop_length _ _ _ _ _,
            ⟨orbit, rfl, List.length_map _ _⟩, ?_, h.1.symm, h.2.symm⟩
          intro p hp
          rw [List.mem_map] at hp
          obtain ⟨q, -, rfl⟩ := hp
          rfl

/-- A call of `setArm` with a free arm, a count of at least one and the
orbit table of the constructor does not raise. -/
theorem setArm_isSome (M : JSMath α) (c : ArmCollection α) (o : BallCollection α)
    (bi count : Nat) (ball : BallAnimator α)
    (horb : c.orbits = (List.range 5).map (ArmCollection.orbit M)) (hcount : 1 ≤ count)
    (hball : o.stock[bi]? = some ball) :
    ∃ c' o', c.setArm o bi count = some (c', o') := by
  have hd5 : ¬ (5 < max 1 (6 - count)) := by omega
  have hget : c.orbits[5 - max 1 (6 - count)]?
      = some (ArmCollection.orbit M (5 - max 1 (6 - count))) := by
    rw [horb]; exact orbits_getElem? M _ (by omega)
  unfold ArmCollection.setArm
  simp only [hball]
  cases hc : c.choose ball with
  | none => exact ⟨_, _, rfl⟩
  | some sf =>
    obtain ⟨side, factor⟩ := sf
    simp only [hd5, if_false, hget]
    exact ⟨_, _, rfl⟩

/-- C4: after a successful `setArm(ball, count)` with `count ≥ 1` and
`delay = max(1, 6 - count)`, the queue of the ball and the queue of the chosen
arm have the same length `delay + orbits[5 - delay].length = 5 * delay + 1`;
the first `delay` entries of the ball's queue are placeholders and every later
entry is the arm's waypoint at the same index. -/
theorem setArm_queues (M : JSMath α) (c : ArmCollection α) (o : BallCollection α)
    (bi count : Nat) (ball : BallAnimator α) (side : Side) (factor : α)
    (horb : c.orbits = (List.range 5).map (ArmCollection.orbit M)) (hcount : 1 ≤ count)
    (hball : o.stock[bi]? = some ball) (hchoose : c.choose ball = some (side, factor)) :
    ∃ c' o' ball', c.setArm o bi count = some (c', o') ∧ o'.stock[bi]? = some ball' ∧
      ball'.future.length = 5 * max 1 (6 - count) + 1 ∧
      (c'.arm side).future.length = 5 * max 1 (6 - count) + 1 ∧
      (∃ orbit, c.orbits[5 - max 1 (6 - count)]? = some orbit ∧
        5 * max 1 (6 - count) + 1 = max 1 (6 - count) + orbit.length) ∧
      (∀ i, i < max 1 (6 - count) → ball'.future[i]? = some none) ∧
      (∀ i, max 1 (6 - count) ≤ i → i < 5 * max 1 (6 - count) + 1 →
        ∃ p, (c'.arm side).future[i]? = some p ∧ ball'.future[i]? = some (some p)) := by
  obtain ⟨c', o', hset⟩ := setArm_isSome M c o bi count ball horb hcount hball
  obtain ⟨ball0, hb0, hcase⟩ := setArm_some c c' o o' bi count hset
  rw [hball] at hb0
  cases hb0
  rcases hcase with ⟨hnone, -, -⟩ | ⟨side', factor', first, follow, hch, hfirst, ⟨orbit, horbit, hfl⟩,
    -, hc', ho'⟩
  · rw [hchoose] at hnone; cases hnone
  rw [hchoose] at hch
  cases hch
  have hget : c.orbits[5 - max 1 (6 - count)]?
      = some (ArmCollection.orbit M (5 - max 1 (6 - count))) := by
    rw [horb]; exact orbits_getElem? M _ (by omega)
  rw [hget] at horbit
  cases horbit
  have hfol : follow.length = 4 * max 1 (6 - count) + 1 := by
    rw [hfl, orbit_length]; omega
  have hbi : bi < o.stock.length := by
    by_contra hcon
    rw [List.getElem?_eq_none (not_lt.mp hcon)] at hball
    cases hball
  refine ⟨c', o', ball.setFuture (List.replicate first.length none ++ follow.map some),
    hset, ?_, ?_, ?_, ⟨_, hget, ?_⟩, ?_, ?_⟩
  · rw [ho']
    simp only [List.getElem?_set, hbi, if_true]
  · simp only [BallAnimator.setFuture, List.length_append, List.length_replicate,
      List.length_map, hfirst, hfol]
    omega
  · rw [hc']
    show (((c.setSide side _).arm side).future).length = _
    rw [(arm_setSide c side _).1]
    simp only [ArmAnimator.setFuture, List.length_append, hfirst, hfol]
    omega
  · rw [orbit_length]; omega
  · intro i hi
    show (List.replicate first.length none ++ follow.map some)[i]? = _
    rw [List.getElem?_append_left (by simpa [hfirst] using hi)]
    rw [List.getElem?_replicate]
    simp [hfirst, hi]
  · intro i hlo hhi
    have hi2 : i - first.length < follow.length := by omega
    refine ⟨follow[i - first.length], ?_, ?_⟩
    · rw [hc']
      show (((c.setSide side _).arm side).future)[i]? = _
      rw [(arm_setSide c side _).1]
      show (first ++ follow)[i]? = _
      rw [List.getElem?_append_right (by omega), List.getElem?_eq_getElem hi2]
    · show (List.replicate first.length none ++ follow.map some)[i]? = _
      rw [List.getElem?_append_right (by simp; omega)]
      simp only [List.length_replicate, List.getElem?_map, List.getElem?_eq_getElem hi2,
        Option.map_some']

/-- The statement of C4 for the sample ball and arms with one active ball:
`delay = 5` and both queues have `26` entries. -/
theorem setArm_queues_witness :
    ∃ c' o' ball', sampleArms.setArm (poolOf sampleBall) 0 1 = some (c', o') ∧
      o'.stock[0]? = some ball' ∧
      ball'.future.length = 5 * max 1 (6 - 1) + 1 ∧
      (c'.arm Side.left).future.length = 5 * max 1 (6 - 1) + 1 ∧
      (∃ orbit, sampleArms.orbits[5 - max 1 (6 - 1)]? = some orbit ∧
        5 * max 1 (6 - 1) + 1 = max 1 (6 - 1) + orbit.length) ∧
      (∀ i, i < max 1 (6 - 1) → ball'.future[i]? = some none) ∧
      (∀ i, max 1 (6 - 1) ≤ i → i < 5 * max 1 (6 - 1) + 1 →
        ∃ p, (c'.arm Side.left).future[i]? = some p ∧ ball'.future[i]? = some (some p)) :=
  setArm_queues ratMath sampleArms (poolOf sampleBall) 0 1 sampleBall Side.left 1
    rfl (le_refl 1) rfl
    (by simp [ArmCollection.choose, ArmCollection.arm, sampleArms, ArmCollection.new,
          ArmAnimator.new, sampleBall])

/-! ## Handoff at the end of an arm's queue -/

/-- C8: when `ArmAnimator.setNext` empties the arm's queue, the locked ball gets
`dx = (H.x - ball.x) * max(1, scale / 2) / 100` and `dy = getVelocity(ball.y)`,
where `H` is the arm's own home hand if the ball's side tag equals the arm's
direction and the paired arm's home hand otherwise, and the lock is cleared;
when the queue stays non-empty the balls and the lock are unchanged. -/
theorem setNext_handoff (M : JSMath α) (arm another : ArmAnimator α) (o : BallCollection α) :
    (∀ point i ball, arm.future = [point] → arm.lock = some i → o.stock[i]? = some ball →
      ∃ arm' o' ball', ArmAnimator.setNext M arm another o = some (arm', o') ∧
        arm'.future = [] ∧ arm'.lock = none ∧ o'.stock[i]? = some ball' ∧
        ball'.dx = ((if some ball.direction = arm.direction then arm.home.hand.x
                      else another.home.hand.x) - ball.x) * max 1 (o.scale / 2) / 100 ∧
        ball'.dy = o.getVelocity M ball.y) ∧
    (∀ point next rest, arm.future = point :: next :: rest →
      ∃ arm', ArmAnimator.setNext M arm another o = some (arm', o) ∧
        arm'.future = next :: rest ∧ arm'.lock = arm.lock) := by
  constructor
  · intro point i ball hfut hlock hball
    have hi : i < o.stock.length := by
      by_contra hcon
      rw [List.getElem?_eq_none (not_lt.mp hcon)] at hball
      cases hball
    unfold ArmAnimator.setNext
    simp only [hfut, List.length_nil, lt_self_iff_false, if_false, hlock, hball]
    refine ⟨_, _, { ball with
        dx := ((if some ball.direction = arm.direction then arm.home else another.home).hand.x
                - ball.x) * max 1 (o.scale / 2) / 100,
        dy := o.getVelocity M ball.y }, rfl, rfl, rfl, ?_, ?_, rfl⟩
    · simp only [List.getElem?_set, hi, if_true]
    · by_cases hd : some ball.direction = arm.direction
      · simp [hd]
      · simp [hd]
  · intro point next rest hfut
    unfold ArmAnimator.setNext
    simp only [hfut, List.length_cons, Nat.zero_lt_succ, if_true]
    exact ⟨_, rfl, rfl, rfl⟩

/-- The statement of C8 for the left arm of `sampleArms` holding the sample ball
with one, respectively two, waypoints left. -/
theorem setNext_handoff_witness :
    (∃ arm' o' ball', ArmAnimator.setNext ratMath (busyLeft [DOMPoint.xy 1 2])
        sampleArms.right (poolOf sampleBall) = some (arm', o') ∧
        arm'.future = [] ∧ arm'.lock = none ∧ o'.stock[0]? = some ball' ∧
        ball'.dx = ((if some sampleBall.direction = (busyLeft [DOMPoint.xy 1 2]).direction
                      then (busyLeft [DOMPoint.xy 1 2]).home.hand.x
                      else sampleArms.right.home.hand.x) - sampleBall.x)
                    * max 1 ((poolOf sampleBall).scale / 2) / 100 ∧
        ball'.dy = (poolOf sampleBall).getVelocity ratMath sampleBall.y) ∧
    (∃ arm', ArmAnimator.setNext ratMath (busyLeft [DOMPoint.xy 1 2, DOMPoint.xy 3 4])
        sampleArms.right (poolOf sampleBall) = some (arm', poolOf sampleBall) ∧
        arm'.future = [DOMPoint.xy 3 4] ∧
        arm'.lock = (busyLeft [DOMPoint.xy 1 2, DOMPoint.xy 3 4]).lock) :=
  ⟨(setNext_handoff ratMath (busyLeft [DOMPoint.xy 1 2]) sampleArms.right
      (poolOf sampleBall)).1 (DOMPoint.xy 1 2) 0 sampleBall rfl rfl rfl,
   (setNext_handoff ratMath (busyLeft [DOMPoint.xy 1 2, DOMPoint.xy 3 4]) sampleArms.right
      (poolOf sampleBall)).2 (DOMPoint.xy 1 2) (DOMPoint.xy 3 4) [] rfl⟩

/-! ## Selection of the ball to catch -/

theorem mem_active_filter (o : BallCollection α) (j : Nat) (b : BallAnimator α) :
    (j, b) ∈ (o.stock.take o.count).enum.filter (fun elem => elem.2.future.length = 0) ↔
      j < o.count ∧ o.stock[j]? = some b ∧ b.future = [] := by
  rw [List.mem_filter, List.mk_mem_enum_iff_getElem?, List.getElem?_take]
  by_cases hj : j < o.count
  · simp [hj, List.length_eq_zero]
  · simp [hj]

theorem getLast?_sorted_max {β : Type} (r : β → β → Prop) (hrefl : ∀ a, r a a) (l : List β)
    (hs : l.Sorted r) (x : β) (hx : l.getLast? = some x) : ∀ a ∈ l, r a x := by
  have hne : l ≠ [] := by
    intro h; rw [h] at hx; cases hx
  rw [List.getLast?_eq_getLast l hne] at hx
  cases hx
  intro a ha
  rw [← List.dropLast_append_getLast hne] at ha hs
  rw [List.mem_append] at ha
  rcases ha with ha | ha
  · exact (List.pairwise_append.mp hs).2.2 a ha _ (List.mem_singleton_self _)
  · rw [List.mem_singleton] at ha
    rw [ha]; exact hrefl _

/-- A ball returned by `getFirstBall` is one of the active balls with an empty
queue. -/
theorem getFirstBall_mem (o : BallCollection α) (i : Nat) (h : o.getFirstBall = some i) :
    ∃ b, (i, b) ∈ (o.stock.take o.count).enum.filter (fun elem => elem.2.future.length = 0) := by
  unfold BallCollection.getFirstBall at h
  simp only [Option.map_eq_some'] at h
  obtain ⟨⟨i', b⟩, hlast, hfst⟩ := h
  simp only at hfst
  subst hfst
  obtain ⟨hne, hget⟩ := List.mem_getLast?_eq_getLast hlast
  refine ⟨b, ?_⟩
  rw [← (List.perm_insertionSort (fun a b : Nat × BallAnimator α => a.2.dy ≤ b.2.dy) _).mem_iff,
    hget]
  exact List.getLast_mem hne

/-- C10: `getFirstBall` returns an active ball with an empty queue whose `dy`
is at least the `dy` of every active ball with an empty queue, and it returns
no ball exactly when no active ball has an empty queue. -/
theorem getFirstBall_spec (o : BallCollection α) :
    (∀ i, o.getFirstBall = some i →
      i < o.count ∧ ∃ b, o.stock[i]? = some b ∧ b.future = [] ∧
        ∀ j b', j < o.count → o.stock[j]? = some b' → b'.future = [] → b'.dy ≤ b.dy) ∧
    (o.getFirstBall = none ↔
      ∀ j b', j < o.count → o.stock[j]? = some b' → b'.future ≠ []) := by
  have hperm := List.perm_insertionSort
    (fun a b : Nat × BallAnimator α => a.2.dy ≤ b.2.dy)
    ((o.stock.take o.count).enum.filter (fun elem => elem.2.future.length = 0))
  have htot : IsTotal (Nat × BallAnimator α) (fun a b => a.2.dy ≤ b.2.dy) :=
    ⟨fun a b => le_total a.2.dy b.2.dy⟩
  have htrans : IsTrans (Nat × BallAnimator α) (fun a b => a.2.dy ≤ b.2.dy) :=
    ⟨fun a b c hab hbc => le_trans hab hbc⟩
  have hsorted := List.sorted_insertionSort
    (fun a b : Nat × BallAnimator α => a.2.dy ≤ b.2.dy)
    ((o.stock.take o.count).enum.filter (fun elem => elem.2.future.length = 0))
  constructor
  · intro i hi
    unfold BallCollection.getFirstBall at hi
    simp only [Option.map_eq_some'] at hi
    obtain ⟨⟨i', b⟩, hlast, hfst⟩ := hi
    simp only at hfst
    subst hfst
    have hmax := getLast?_sorted_max (fun a b : Nat × BallAnimator α => a.2.dy ≤ b.2.dy)
      (fun a => le_refl a.2.dy) _ hsorted _ hlast
    obtain ⟨hne, hget⟩ := List.mem_getLast?_eq_getLast hlast
    have hmem : (i', b) ∈ (o.stock.take o.count).enum.filter
        (fun elem => elem.2.future.length = 0) := by
      rw [← hperm.mem_iff, hget]
      exact List.getLast_mem hne
    obtain ⟨hic, hib, hif⟩ := (mem_active_filter o i' b).mp hmem
    refine ⟨hic, b, hib, hif, ?_⟩
    intro j b' hj hjb hjf
    have hmem' : (j, b') ∈ (o.stock.take o.count).enum.filter
        (fun elem => elem.2.future.length = 0) :=
      (mem_active_filter o j b').mpr ⟨hj, hjb, hjf⟩
    exact hmax (j, b') (hperm.mem_iff.mpr hmem')
  · unfold BallCollection.getFirstBall
    simp only [Option.map_eq_none', List.getLast?_eq_none_iff]
    constructor
    · intro hnil j b' hj hjb hjf
      have hmem' : (j, b') ∈ (o.stock.take o.count).enum.filter
          (fun elem => elem.2.future.length = 0) :=
        (mem_active_filter o j b').mpr ⟨hj, hjb, hjf⟩
      rw [← hperm.mem_iff, hnil] at hmem'
      cases hmem'
    · intro hall
      have hnil : (o.stock.take o.count).enum.filter
          (fun elem => elem.2.future.length = 0) = [] := by
        rw [List.eq_nil_iff_forall_not_mem]
        rintro ⟨j, b'⟩ hmem
        obtain ⟨hj, hjb, hjf⟩ := (mem_active_filter o j b').mp hmem
        exact hall j b' hj hjb hjf
      rw [hnil]; rfl

/-! ## Side classification -/

theorem indicesOf_cons (p : BallAnimator α → Bool) (b : BallAnimator α)
    (bs : List (BallAnimator α)) :
    BallCollection.indicesOf p (b :: bs)
      = (if p b = true then [0] else []) ++ (BallCollection.indicesOf p bs).map (· + 1) := by
  unfold BallCollection.indicesOf
  rw [List.enum_cons', List.filter_cons, List.filter_map, List.map_map]
  by_cases hp : p b = true
  · simp only [hp, if_true, List.map_cons, List.singleton_append, List.map_map]
    rfl
  · simp only [hp, if_false, List.nil_append, List.map_map, Bool.false_eq_true]
    rfl

theorem tagAll_succ (d : Direction) (idxs : List Nat) (b : BallAnimator α)
    (bs : List (BallAnimator α)) :
    BallCollection.tagAll d (idxs.map (· + 1)) (b :: bs) = b :: BallCollection.tagAll d idxs bs := by
  induction idxs generalizing bs with
  | nil => rfl
  | cons i rest ih =>
    unfold BallCollection.tagAll at ih ⊢
    simp only [List.map_cons, List.foldl_cons, List.modify_succ_cons]
    exact ih _

theorem tagAll_zero (d : Direction) (idxs : List Nat) (b : BallAnimator α)
    (bs : List (BallAnimator α)) :
    BallCollection.tagAll d (0 :: idxs.map (· + 1)) (b :: bs)
      = { b with direction := d } :: BallCollection.tagAll d idxs bs := by
  have h := tagAll_succ d idxs { b with direction := d } bs
  unfold BallCollection.tagAll at h ⊢
  simp only [List.foldl_cons, List.modify_zero_cons]
  exact h

theorem tagAll_nil (d : Direction) (bs : List (BallAnimator α)) :
    BallCollection.tagAll d [] bs = bs := rfl

theorem tagAll_length (d : Direction) (idxs : List Nat) (bs : List (BallAnimator α)) :
    (BallCollection.tagAll d idxs bs).length = bs.length := by
  induction idxs generalizing bs with
  | nil => rfl
  | cons i rest ih =>
    unfold BallCollection.tagAll at ih ⊢
    simp only [List.foldl_cons]
    rw [ih, List.length_modify]

/-- After the first two passes of the even branch, re-tagging the first `k`
balls of the `right` group as `left` leaves `|left| + min k |right|` balls
tagged `left` and `|right| - min k |right|` tagged `right`. -/
theorem retag_right_count (balls : List (BallAnimator α)) (k : Nat) :
    (BallCollection.tagAll Direction.left
        ((BallCollection.indicesOf (fun elem => elem.dx < 0) balls).take k)
        (BallCollection.tagAll Direction.left
          (BallCollection.indicesOf (fun elem => 0 ≤ elem.dx) balls)
          (BallCollection.tagAll Direction.right
            (BallCollection.indicesOf (fun elem => elem.dx < 0) balls) balls))).countP
        (fun b => b.direction = Direction.left)
      = (BallCollection.indicesOf (fun elem => 0 ≤ elem.dx) balls).length
        + min k (BallCollection.indicesOf (fun elem => elem.dx < 0) balls).length ∧
    (BallCollection.tagAll Direction.left
        ((BallCollection.indicesOf (fun elem => elem.dx < 0) balls).take k)
        (BallCollection.tagAll Direction.left
          (BallCollection.indicesOf (fun elem => 0 ≤ elem.dx) balls)
          (BallCollection.tagAll Direction.right
            (BallCollection.indicesOf (fun elem => elem.dx < 0) balls) balls))).countP
        (fun b => b.direction = Direction.right)
      = (BallCollection.indicesOf (fun elem => elem.dx < 0) balls).length
        - min k (BallCollection.indicesOf (fun elem => elem.dx < 0) balls).length := by
  induction balls generalizing k with
  | nil => simp [BallCollection.indicesOf, BallCollection.tagAll]
  | cons b bs ih =>
    rw [indicesOf_cons, indicesOf_cons]
    by_cases hneg : b.dx < 0
    · have hnn : ¬ (0 ≤ b.dx) := not_le.mpr hneg
      simp only [hneg, hnn, decide_True, decide_False, if_true, Bool.false_eq_true, if_false,
        List.singleton_append, List.nil_append]
      rw [tagAll_zero, tagAll_succ]
      cases k with
      | zero =>
        obtain ⟨h1, h2⟩ := ih 0
        simp only [List.take_zero, tagAll_nil] at h1 h2 ⊢
        simp only [List.countP_cons, h1, h2, List.length_cons, List.length_map]
        simp
      | succ k' =>
        obtain ⟨h1, h2⟩ := ih k'
        rw [List.take_succ_cons, ← List.map_take, tagAll_zero]
        simp only [List.countP_cons, h1, h2, List.length_cons, List.length_map]
        simp only [decide_True, if_true, decide_False, Bool.false_eq_true, if_false,
          reduceCtorEq]
        omega
    · have hnn : 0 ≤ b.dx := not_lt.mp hneg
      simp only [hneg, hnn, decide_True, decide_False, if_true, Bool.false_eq_true, if_false,
        List.singleton_append, List.nil_append]
      rw [tagAll_succ, tagAll_zero, ← List.map_take, tagAll_succ]
      obtain ⟨h1, h2⟩ := ih k
      simp only [List.countP_cons, h1, h2, List.length_cons, List.length_map]
      simp only [decide_True, if_true, decide_False, Bool.false_eq_true, if_false,
        reduceCtorEq]
      omega

/-- The mirror image of `retag_right_count`: re-tagging the first `k` balls of
the `left` group as `right`. -/
theorem retag_left_count (balls : List (BallAnimator α)) (k : Nat) :
    (BallCollection.tagAll Direction.right
        ((BallCollection.indicesOf (fun elem => 0 ≤ elem.dx) balls).take k)
        (BallCollection.tagAll Direction.left
          (BallCollection.indicesOf (fun elem => 0 ≤ elem.dx) balls)
          (BallCollection.tagAll Direction.right
            (BallCollection.indicesOf (fun elem => elem.dx < 0) balls) balls))).countP
        (fun b => b.direction = Direction.left)
      = (BallCollection.indicesOf (fun elem => 0 ≤ elem.dx) balls).length
        - min k (BallCollection.indicesOf (fun elem => 0 ≤ elem.dx) balls).length ∧
    (BallCollection.tagAll Direction.right
        ((BallCollection.indicesOf (fun elem => 0 ≤ elem.dx) balls).take k)
        (BallCollection.tagAll Direction.left
          (BallCollection.indicesOf (fun elem => 0 ≤ elem.dx) balls)
          (BallCollection.tagAll Direction.right
            (BallCollection.indicesOf (fun elem => elem.dx < 0) balls) balls))).countP
        (fun b => b.direction = Direction.right)
      = (BallCollection.indicesOf (fun elem => elem.dx < 0) balls).length
        + min k (BallCollection.indicesOf (fun elem => 0 ≤ elem.dx) balls).length := by
  induction balls generalizing k with
  | nil => simp [BallCollection.indicesOf, BallCollection.tagAll]
  | cons b bs ih =>
    rw [indicesOf_cons, indicesOf_cons]
    by_cases hneg : b.dx < 0
    · have hnn : ¬ (0 ≤ b.dx) := not_le.mpr hneg
      simp only [hneg, hnn, decide_True, decide_False, if_true, Bool.false_eq_true, if_false,
        List.singleton_append, List.nil_append]
      rw [tagAll_zero, tagAll_succ, ← List.map_take, tagAll_succ]
      obtain ⟨h1, h2⟩ := ih k
      simp only [List.countP_cons, h1, h2, List.length_cons, List.length_map]
      simp only [decide_True, if_true, decide_False, Bool.false_eq_true, if_false,
        reduceCtorEq]
      omega
    · have hnn : 0 ≤ b.dx := not_lt.mp hneg
      simp only [hneg, hnn, decide_True, decide_False, if_true, Bool.false_eq_true, if_false,
        List.singleton_append, List.nil_append]
      rw [tagAll_succ, tagAll_zero]
      cases k with
      | zero =>
        obtain ⟨h1, h2⟩ := ih 0
        simp only [List.take_zero, tagAll_nil] at h1 h2 ⊢
        simp only [List.countP_cons, h1, h2, List.length_cons, List.length_map]
        simp
      | succ k' =>
        obtain ⟨h1, h2⟩ := ih k'
        rw [List.take_succ_cons, ← List.map_take, tagAll_zero]
        simp only [List.countP_cons, h1, h2, List.length_cons, List.length_map]
        simp only [decide_True, if_true, decide_False, Bool.false_eq_true, if_false,
          reduceCtorEq]
        omega

/-- The odd branch tags every ball `cross`. -/
theorem tagAll_cross_count (balls : List (BallAnimator α)) (d : Direction)
    (hd : d ≠ Direction.cross) :
    (BallCollection.tagAll Direction.cross (List.range balls.length) balls).countP
      (fun b => b.direction = d) = 0 := by
  induction balls with
  | nil => rfl
  | cons b bs ih =>
    rw [List.length_cons, List.range_succ_eq_map, tagAll_zero, List.countP_cons, ih]
    have : ¬ (Direction.cross = d) := fun h => hd h.symm
    simp [this]

theorem directed_length (count : Nat) (balls : List (BallAnimator α)) :
    (BallCollection.directed count balls).length = balls.length := by
  unfold BallCollection.directed
  by_cases h1 : count % 2 = 1
  · simp only [h1, if_true, tagAll_length]
  · simp only [h1, if_false]
    split_ifs <;> simp only [tagAll_length]

/-- The tags written by `#setDirections`: the numbers of `left` and `right`
balls differ by at most one. -/
theorem directed_balanced (count : Nat) (balls : List (BallAnimator α)) :
    (BallCollection.directed count balls).countP (fun b => b.direction = Direction.left)
      ≤ (BallCollection.directed count balls).countP (fun b => b.direction = Direction.right) + 1
    ∧ (BallCollection.directed count balls).countP (fun b => b.direction = Direction.right)
      ≤ (BallCollection.directed count balls).countP (fun b => b.direction = Direction.left) + 1 := by
  unfold BallCollection.directed
  by_cases h1 : count % 2 = 1
  · simp only [h1, if_true]
    rw [tagAll_cross_count balls Direction.left (by decide),
      tagAll_cross_count balls Direction.right (by decide)]
    omega
  · simp only [h1, if_false]
    by_cases h2 : (BallCollection.indicesOf (fun elem => 0 ≤ elem.dx) balls).length
        < (BallCollection.indicesOf (fun elem => elem.dx < 0) balls).length
    · simp only [h2, if_true]
      obtain ⟨e1, e2⟩ := retag_right_count balls
        (((BallCollection.indicesOf (fun elem => elem.dx < 0) balls).length
          - (BallCollection.indicesOf (fun elem => 0 ≤ elem.dx) balls).length) / 2)
      rw [e1, e2]
      omega
    · simp only [h2, if_false]
      by_cases h3 : (BallCollection.indicesOf (fun elem => elem.dx < 0) balls).length
          < (BallCollection.indicesOf (fun elem => 0 ≤ elem.dx) balls).length
      · simp only [h3, if_true]
        obtain ⟨e1, e2⟩ := retag_left_count balls
          (((BallCollection.indicesOf (fun elem => 0 ≤ elem.dx) balls).length
            - (BallCollection.indicesOf (fun elem => elem.dx < 0) balls).length) / 2)
        rw [e1, e2]
        omega
      · simp only [h3, if_false]
        obtain ⟨e1, e2⟩ := retag_right_count balls 0
        simp only [List.take_zero, tagAll_nil] at e1 e2
        rw [e1, e2]
        omega

theorem setDirections_take (o : BallCollection α) :
    o.setDirections.stock.take o.setDirections.count
      = BallCollection.directed o.count (o.stock.take o.count) := by
  show (BallCollection.directed o.count (o.stock.take o.count) ++ o.stock.drop o.count).take
      o.count = _
  have hlen := directed_length o.count (o.stock.take o.count)
  rw [List.length_take] at hlen
  by_cases hc : o.count ≤ o.stock.length
  · rw [List.take_append_of_le_length (by omega), List.take_of_length_le (by omega)]
  · rw [List.drop_of_length_le (by omega), List.append_nil, List.take_of_length_le (by omega)]

theorem setDirections_balanced (o : BallCollection α) :
    o.setDirections.tagged Direction.left ≤ o.setDirections.tagged Direction.right + 1 ∧
    o.setDirections.tagged Direction.right ≤ o.setDirections.tagged Direction.left + 1 := by
  unfold BallCollection.tagged
  rw [setDirections_take]
  exact directed_balanced _ _

/-- C5: after each of `setupStart`, `setupRestart`, `setupSpeed` and `addBall`
that completes, the numbers of active balls tagged `left` and tagged `right`
differ by at most one. -/
theorem directions_balanced [FloorRing α] (M : JSMath α) (o o' : BallCollection α) (count : Nat)
    (h : o.setupStart M count = some o' ∨ o.setupRestart M = some o' ∨
      o.setupSpeed M count = some o' ∨ o.addBall M = some o') :
    o'.tagged Direction.left ≤ o'.tagged Direction.right + 1 ∧
    o'.tagged Direction.right ≤ o'.tagged Direction.left + 1 := by
  have key : ∃ x : BallCollection α, o' = x.setDirections := by
    rcases h with h | h | h | h
    · unfold BallCollection.setupStart at h
      simp only at h
      split at h
      · cases h
      · exact ⟨_, (Option.some.inj h).symm⟩
    · unfold BallCollection.setupRestart at h
      split at h
      · cases h
      · exact ⟨_, (Option.some.inj h).symm⟩
    · unfold BallCollection.setupSpeed at h
      simp only at h
      split at h
      · cases h
      · exact ⟨_, (Option.some.inj h).symm⟩
    · unfold BallCollection.addBall at h
      simp only at h
      split at h
      · cases h
      · exact ⟨_, (Option.some.inj h).symm⟩
  obtain ⟨x, rfl⟩ := key
  exact setDirections_balanced x

/-- The statement of C5 for `setupStart(2)` on a freshly constructed pool. -/
theorem directions_balanced_witness :
    ∃ o', (BallCollection.new (0 : ℚ) 300).setupStart ratMath 2 = some o' ∧
      o'.tagged Direction.left ≤ o'.tagged Direction.right + 1 ∧
      o'.tagged Direction.right ≤ o'.tagged Direction.left + 1 := by
  have hsome : ((BallCollection.new (0 : ℚ) 300).setupStart ratMath 2).isSome = true := rfl
  obtain ⟨o', ho'⟩ := Option.isSome_iff_exists.mp hsome
  exact ⟨o', ho', directions_balanced ratMath _ o' 2 (Or.inl ho')⟩

/-! ## Scoring -/

theorem fall_future (o : BallCollection α) (b : BallAnimator α) :
    (b.fall o).1.future = b.future := by
  unfold BallAnimator.fall BallAnimator.step
  simp only
  split_ifs <;> rfl

theorem fall_no_score (o : BallCollection α) (b : BallAnimator α) :
    (b.fall o).2.countP Event.isScore = 0 := by
  unfold BallAnimator.fall
  simp only
  split_ifs <;> rfl

theorem setNext_future [FloorRing α] (o : BallCollection α) (b : BallAnimator α) :
    (b.setNext o).1.future = b.future.tail := by
  unfold BallAnimator.setNext
  split
  · rename_i h; rw [fall_future, h]; rfl
  · rename_i rest h; rw [fall_future, h]; rfl
  · rename_i point rest h; rw [h]; rfl

theorem setNext_no_score [FloorRing α] (o : BallCollection α) (b : BallAnimator α)
    (h : ¬ ∃ point, b.future = [some point] ∧ 0 < point.z) :
    (b.setNext o).2.countP Event.isScore = 0 := by
  unfold BallAnimator.setNext
  split
  · exact fall_no_score o b
  · exact fall_no_score o _
  · rename_i point rest hf
    by_cases hc : rest.length = 0 ∧ o.hasScore = true ∧ 0 < point.z
    · exfalso
      apply h
      refine ⟨point, ?_, hc.2.2⟩
      rw [hf, List.length_eq_zero.mp hc.1]
    · simp only [hc, if_false]; rfl

theorem setNext_score [FloorRing α] (o : BallCollection α) (b : BallAnimator α)
    (point : DOMPoint α) (hscore : o.hasScore = true) (hf : b.future = [some point])
    (hz : 0 < point.z) :
    (b.setNext o).2 = [Event.score
      ((((max 0 ⌊(point.y - o.top) * (o.count : α) / 100⌋ : ℤ) : α) + point.w) * point.z)] := by
  unfold BallAnimator.setNext
  split
  · rename_i h; rw [hf] at h; cases h
  · rename_i rest h; rw [hf] at h; cases h
  · rename_i p rest h
    rw [hf] at h
    cases h
    simp only [List.length_nil, hscore, hz, and_self, if_true]
    rfl

/-- Score events of a queue run to its end: none before the last tick, and one
on the last tick when the last waypoint has coordinates and a positive `z`. -/
theorem run_scores [FloorRing α] (o : BallCollection α) (hscore : o.hasScore = true)
    (fut : List (Option (DOMPoint α))) (b : BallAnimator α) (hb : b.future = fut) :
    (∀ k, k < fut.length → (BallAnimator.run o k b).2.countP Event.isScore = 0) ∧
    (∀ p, fut.getLast? = some (some p) → 0 < p.z →
      (BallAnimator.run o fut.length b).2.countP Event.isScore = 1) := by
  induction fut generalizing b with
  | nil =>
    refine ⟨fun k hk => absurd hk (Nat.not_lt_zero k), fun p hp _ => ?_⟩
    cases hp
  | cons w rest ih =>
    have hnext : (b.setNext o).1.future = rest := by rw [setNext_future, hb]; rfl
    obtain ⟨ih1, ih2⟩ := ih (b.setNext o).1 hnext
    constructor
    · intro k hk
      cases k with
      | zero => rfl
      | succ k' =>
        have hk' : k' < rest.length := by simpa using hk
        have hno : ¬ ∃ point, b.future = [some point] ∧ 0 < point.z := by
          rintro ⟨point, hp, -⟩
          rw [hb] at hp
          cases hp
          exact Nat.not_lt_zero _ hk'
        show ((b.setNext o).2 ++ (BallAnimator.run o k' (b.setNext o).1).2).countP _ = 0
        rw [List.countP_append, setNext_no_score o b hno, ih1 k' hk']
    · intro p hp hz
      show ((b.setNext o).2 ++ (BallAnimator.run o rest.length (b.setNext o).1).2).countP _ = 1
      rw [List.countP_append]
      cases rest with
      | nil =>
        have hw : w = some p := by simpa using hp
        rw [setNext_score o b p hscore (by rw [hb, hw]) hz]
        rfl
      | cons w' rest' =>
        have hno : ¬ ∃ point, b.future = [some point] ∧ 0 < point.z := by
          rintro ⟨point, hp', -⟩
          rw [hb] at hp'
          cases hp'
        rw [setNext_no_score o b hno, ih2 p (by simpa using hp) hz]

theorem choose_factor (c : ArmCollection α) (ball : BallAnimator α) (side : Side) (factor : α)
    (h : c.choose ball = some (side, factor)) : factor = 1 ∨ factor = 2 := by
  unfold ArmCollection.choose at h
  simp only at h
  by_cases h1 : 0 < (c.arm (if ball.x < 0 then Side.right else Side.left)).future.length
  · simp only [h1, if_true] at h
    by_cases h2 : 0 < (c.arm (if ball.x < 0 then Side.right
        else Side.left).another).future.length
    · simp only [h2, if_true] at h
      cases h
    · simp only [h2, if_false, Option.some.injEq, Prod.mk.injEq] at h
      exact Or.inr h.2.symm
  · simp only [h1, if_false, Option.some.injEq, Prod.mk.injEq] at h
    exact Or.inl h.2.symm

/-- C9: with a score handler registered, `BallAnimator.setNext` calls it exactly
when it dequeues a waypoint with coordinates that is the last of the queue and
has `z > 0`, with the value `(max(0, floor((y - top) * count / 100)) + w) * z`;
no other call of `setNext` scores, so the queue installed on the ball by a
successful `setArm` scores once, on its last tick. -/
theorem score_exactly_once [FloorRing α] (M : JSMath α) (o : BallCollection α)
    (hscore : o.hasScore = true) :
    (∀ (b : BallAnimator α) (point : DOMPoint α), b.future = [some point] → 0 < point.z →
      (b.setNext o).2 = [Event.score
        ((((max 0 ⌊(point.y - o.top) * (o.count : α) / 100⌋ : ℤ) : α) + point.w) * point.z)]) ∧
    (∀ b : BallAnimator α, (¬ ∃ point, b.future = [some point] ∧ 0 < point.z) →
      (b.setNext o).2.countP Event.isScore = 0) ∧
    (∀ (c c' : ArmCollection α) (o' : BallCollection α) (bi count : Nat)
        (ball ball' : BallAnimator α),
      c.orbits = (List.range 5).map (ArmCollection.orbit M) →
      o.stock[bi]? = some ball → c.choose ball ≠ none →
      c.setArm o bi count = some (c', o') → o'.stock[bi]? = some ball' →
      (BallAnimator.run o' ball'.future.length ball').2.countP Event.isScore = 1 ∧
      ∀ k, k < ball'.future.length →
        (BallAnimator.run o' k ball').2.countP Event.isScore = 0) := by
  refine ⟨fun b point hf hz => setNext_score o b point hscore hf hz,
    fun b hno => setNext_no_score o b hno, ?_⟩
  intro c c' o' bi count ball ball' horb hball hch hset hball'
  obtain ⟨ball0, hb0, hcase⟩ := setArm_some c c' o o' bi count hset
  rw [hball] at hb0
  cases hb0
  rcases hcase with ⟨hnone, -, -⟩ | ⟨side, factor, first, follow, hchoose, hfirst,
    ⟨orbit, horbit, hfl⟩, hz, -, ho'⟩
  · exact absurd hnone hch
  have hbi : bi < o.stock.length := by
    by_contra hcon
    rw [List.getElem?_eq_none (not_lt.mp hcon)] at hball
    cases hball
  have hscore' : o'.hasScore = true := by rw [ho']; exact hscore
  have hfut : ball'.future = List.replicate first.length none ++ follow.map some := by
    rw [ho'] at hball'
    simp only [List.getElem?_set, hbi, if_true, Option.some.injEq] at hball'
    rw [← hball']; rfl
  have hidx : 5 - max 1 (6 - count) < 5 := by omega
  have hlen : 0 < follow.length := by
    rw [horb, orbits_getElem? M _ hidx] at horbit
    cases horbit
    rw [hfl, orbit_length]; omega
  have hne : follow ≠ [] := List.ne_nil_of_length_pos hlen
  obtain ⟨r1, r2⟩ := run_scores o' hscore' ball'.future ball' rfl
  refine ⟨r2 (follow.getLast hne) ?_ ?_, r1⟩
  · rw [hfut, List.getLast?_append_of_ne_nil _ (by simpa using hne),
      List.getLast?_eq_getLast _ (by simpa using hne), List.getLast_map]
  · rw [hz _ (List.getLast_mem hne)]
    rcases choose_factor c ball side factor hchoose with h | h <;> rw [h] <;> norm_num

/-- The statement of C9 for a ball whose queue holds one last waypoint with
`z = 2` and `w = 1` at `y = 220`, under a pool with `top = 20` and one ball. -/
theorem score_exactly_once_witness :
    (BallAnimator.setNext (poolOf sampleBall)
        { sampleBall with future := [some ⟨10, 220, 2, 1⟩] }).2
      = [Event.score
          ((((max 0 ⌊((220 : ℚ) - (poolOf sampleBall).top)
              * ((poolOf sampleBall).count : ℚ) / 100⌋ : ℤ) : ℚ) + 1) * 2)] :=
  (score_exactly_once ratMath (poolOf sampleBall) rfl).1
    { sampleBall with future := [some ⟨10, 220, 2, 1⟩] } ⟨10, 220, 2, 1⟩ rfl (by norm_num)

/-- The statement of C10 for the pool holding only the sample ball. -/
theorem getFirstBall_spec_witness :
    (poolOf sampleBall).getFirstBall = some 0 ∧
    0 < (poolOf sampleBall).count ∧ ∃ b, (poolOf sampleBall).stock[0]? = some b ∧
      b.future = [] ∧
      ∀ j b', j < (poolOf sampleBall).count → (poolOf sampleBall).stock[j]? = some b' →
        b'.future = [] → b'.dy ≤ b.dy :=
  ⟨rfl, (getFirstBall_spec (poolOf sampleBall)).1 0 rfl⟩

/-! ## Drop of an uncaught ball -/

/-- What `setupStart(1)` produces: one active ball with an empty queue at the
launcher `#bottom + 20`, acceleration `0.2`, and `bottom = #bottom`. -/
theorem setupStart_one [FloorRing α] (M : JSMath α) (o : BallCollection α) :
    ∃ o1, o.setupStart M 1 = some o1 ∧ o1.count = 1 ∧
      (∃ b0 rest, o1.stock = b0 :: rest ∧ b0.future = [] ∧ b0.y = o.pbottom + 20) ∧
      o1.bottom = o.pbottom ∧ o1.ground = o.ground ∧ o1.accel = 2 / 10 ∧ o1.half = 1 / 10 ∧
      o1.hasDrop = o.hasDrop := by
  have hceil : ⌈(((1 : Nat) : α)) / 3⌉ = 1 := by
    rw [Int.ceil_eq_iff]
    constructor <;> norm_num
  have hmax : max (1 : α) ((((1 : ℤ) : α) + 2) / 4) = 1 := by
    apply max_eq_left; norm_num
  have hstock : ∃ b rest, o.stock ++ List.replicate (1 - o.stock.length)
      (BallAnimator.fresh : BallAnimator α) = b :: rest := by
    cases hs : o.stock with
    | nil => exact ⟨_, _, rfl⟩
    | cons b t => exact ⟨b, t, by simp⟩
  obtain ⟨b, rest, hbr⟩ := hstock
  unfold BallCollection.setupStart
  simp only [BallCollection.setSize, BallCollection.setBalls, hbr, hceil,
    BallCollection.setBallsLoop, Nat.add_zero, List.getElem?_cons_zero, List.set_cons_zero]
  refine ⟨_, rfl, rfl, ?_, ?_, rfl, rfl, ?_, rfl⟩
  · simp only [BallCollection.setDirections, List.take_succ_cons, List.take_zero,
      List.drop_succ_cons, List.drop_zero,
      BallCollection.directed, Nat.one_mod, if_true, List.length_singleton,
      (by rfl : List.range 1 = [0]),
      BallCollection.tagAll, List.foldl_cons, List.foldl_nil, List.modify_zero_cons,
      List.singleton_append]
    refine ⟨_, _, rfl, rfl, ?_⟩
    show o.pbottom * max 1 _ + 20 = _
    rw [hmax, mul_one]
  · show o.pbottom * max 1 _ = _
    rw [hmax, mul_one]
  · show (2 : α) / 10 / 2 = 1 / 10
    norm_num

/-- One tick of a collection whose only active ball is in free fall, with a
drop handler registered and the ground line not above the bottom line. -/
theorem drawNext_single [FloorRing α] (o : BallCollection α) (b : BallAnimator α)
    (rest : List (BallAnimator α)) (hc : o.count = 1) (hs : o.stock = b :: rest)
    (hf : b.future = []) (hd : o.hasDrop = true) (hg : ¬ o.ground < o.bottom) :
    o.drawNext = ({ o with stock := b.step o :: rest },
      if 0 ≤ (b.step o).dy ∧ o.ground < (b.step o).y then [Event.drop] else []) := by
  have hfall : b.setNext o = (b.step o,
      if 0 ≤ (b.step o).dy ∧ o.ground < (b.step o).y then [Event.drop] else []) := by
    unfold BallAnimator.setNext
    rw [hf]
    simp only
    unfold BallAnimator.fall
    have hfs : (b.step o).future.length = 0 := by
      show b.future.length = 0
      rw [hf]; rfl
    simp only [hfs, hg, false_and, false_or, true_and, hd, if_true]
    by_cases h1 : (b.step o).dy < 0
    · have : ¬ (0 ≤ (b.step o).dy) := not_le.mpr h1
      simp [h1, this]
    · have : 0 ≤ (b.step o).dy := not_lt.mp h1
      simp only [h1, if_false, this, true_and]
      split_ifs <;> rfl
  unfold BallCollection.drawNext
  simp only [hs, hc, List.take_succ_cons, List.take_zero, List.map_cons, List.map_nil, hfall,
    List.drop_succ_cons, List.drop_zero, List.singleton_append, List.flatten_cons,
    List.flatten_nil, List.append_nil]

/-- The first `k` ticks of such a collection advance the ball by `k` free-fall
steps, and tick `k + 1` calls the drop handler exactly when the ball is then
falling below the ground line. -/
theorem ticks_single [FloorRing α] (o : BallCollection α) (b : BallAnimator α)
    (rest : List (BallAnimator α)) (hc : o.count = 1) (hs : o.stock = b :: rest)
    (hf : b.future = []) (hd : o.hasDrop = true) (hg : ¬ o.ground < o.bottom) (k : Nat) :
    (o.ticks k).1 = { o with stock := (BallAnimator.step o)^[k] b :: rest } ∧
    (o.ticks (k + 1)).2 = (o.ticks k).2 ++
      (if 0 ≤ ((BallAnimator.step o)^[k + 1] b).dy ∧ o.ground < ((BallAnimator.step o)^[k + 1] b).y
        then [Event.drop] else []) := by
  have step1 : ∀ j, (o.ticks j).1 = { o with stock := (BallAnimator.step o)^[j] b :: rest } →
      (o.ticks j).1.drawNext = ({ o with stock := (BallAnimator.step o)^[j + 1] b :: rest },
        if 0 ≤ ((BallAnimator.step o)^[j + 1] b).dy ∧
            o.ground < ((BallAnimator.step o)^[j + 1] b).y then [Event.drop] else []) := by
    intro j hj
    rw [hj, drawNext_single { o with stock := (BallAnimator.step o)^[j] b :: rest }
      ((BallAnimator.step o)^[j] b) rest hc rfl
      (by rw [step_future, hf]) hd hg, Function.iterate_succ_apply']
    rfl
  have hstate : ∀ j, (o.ticks j).1 = { o with stock := (BallAnimator.step o)^[j] b :: rest } := by
    intro j
    induction j with
    | zero => show o = _; rw [Function.iterate_zero, id, ← hs]
    | succ j ih =>
      show ((o.ticks j).1.drawNext).1 = _
      rw [step1 j ih]
  refine ⟨hstate k, ?_⟩
  show (o.ticks k).2 ++ ((o.ticks k).1.drawNext).2 = _
  rw [step1 k (hstate k)]

/-- C7: after `setupStart(1)` on a pool with a drop handler registered, with
the ground line `40` below `#bottom` as the constructor sets it, and with no
arm assigned (only the balls advance), there is a tick `N ≥ 1` such that the
`N` ticks call the drop handler exactly once, on tick `N`: before it the ball
is rising or has `y ≤ ground`, and after tick `N` it is falling with
`y > ground`.  This holds wherever the launcher lies relative to the top line. -/
theorem drop_exactly_once [FloorRing α] (M : JSMath α) (o : BallCollection α)
    (hdrop : o.hasDrop = true) (hground : o.ground = o.pbottom + 40) :
    ∃ o1, o.setupStart M 1 = some o1 ∧ ∃ N, 0 < N ∧
      (o1.ticks N).2 = [Event.drop] ∧
      (∀ k, k < N → (o1.ticks k).2 = []) ∧
      (∀ k, k < N → ∃ b, (o1.ticks k).1.stock[0]? = some b ∧
        (b.dy < 0 ∨ b.y ≤ o1.ground)) ∧
      (∃ b, (o1.ticks N).1.stock[0]? = some b ∧ 0 ≤ b.dy ∧ o1.ground < b.y) := by
  obtain ⟨o1, hset, hc, ⟨b0, rest, hs, hf, hy⟩, hbot, hgr, hacc, hhalf, hhd⟩ :=
    setupStart_one M o
  refine ⟨o1, hset, ?_⟩
  have hd : o1.hasDrop = true := by rw [hhd]; exact hdrop
  have hg : ¬ o1.ground < o1.bottom := by
    rw [hgr, hbot, hground]; linarith
  have h2 : o1.accel = 2 * o1.half := by rw [hacc, hhalf]; norm_num
  have hclosed := fun k => step_iterate o1 b0 k h2
  have hticks := ticks_single o1 b0 rest hc hs hf hd hg
  -- a tick at which the ball is falling below the ground line exists
  obtain ⟨K, hK⟩ := exists_nat_ge (10 * |b0.dy| + 21)
  have hex : ∃ k, 0 ≤ ((BallAnimator.step o1)^[k] b0).dy ∧
      o1.ground < ((BallAnimator.step o1)^[k] b0).y := by
    refine ⟨K, ?_, ?_⟩
    · rw [(hclosed K).2.2, hacc]
      have := neg_abs_le b0.dy
      have := abs_nonneg b0.dy
      linarith
    · rw [(hclosed K).2.1, hgr, hground, hy, hhalf]
      have h1 := neg_abs_le b0.dy
      have h3 := abs_nonneg b0.dy
      have h4 : (2 : α) ≤ b0.dy + 1 / 10 * ((K : α) - 1) := by linarith
      have h5 : (21 : α) ≤ (K : α) := by linarith
      have h6 : (21 : α) * 2 ≤ (K : α) * (b0.dy + 1 / 10 * ((K : α) - 1)) :=
        mul_le_mul h5 h4 (by norm_num) (by linarith)
      have h7 : b0.dy * (K : α) + 1 / 10 * (K : α) * ((K : α) - 1)
          = (K : α) * (b0.dy + 1 / 10 * ((K : α) - 1)) := by ring
      rw [h7]; linarith
  classical
  have hmin := fun k (hk : k < Nat.find hex) => Nat.find_min hex hk
  have hN := Nat.find_spec hex
  have hpos : 0 < Nat.find hex := by
    rw [Nat.pos_iff_ne_zero]
    intro h0
    rw [h0] at hN
    have : o1.ground < b0.y := hN.2
    rw [hgr, hground, hy] at this
    linarith
  have hnone : ∀ k, k < Nat.find hex → (o1.ticks k).2 = [] := by
    intro k
    induction k with
    | zero => intro _; rfl
    | succ k ih =>
      intro hk
      rw [(hticks k).2, ih (Nat.lt_of_succ_lt hk), if_neg (hmin (k + 1) hk)]
      rfl
  refine ⟨Nat.find hex, hpos, ?_, hnone, ?_, ?_⟩
  · obtain ⟨n, hn⟩ := Nat.exists_eq_succ_of_ne_zero (Nat.pos_iff_ne_zero.mp hpos)
    have hlt : n < Nat.find hex := by omega
    have hN' := hN
    rw [hn] at hN' ⊢
    rw [(hticks n).2, hnone n hlt, if_pos hN']
    rfl
  · intro k hk
    refine ⟨(BallAnimator.step o1)^[k] b0, ?_, ?_⟩
    · rw [(hticks k).1]; exact List.getElem?_cons_zero
    · have := hmin k hk
      rw [not_and_or, not_le, not_lt] at this
      exact this
  · refine ⟨(BallAnimator.step o1)^[Nat.find hex] b0, ?_, hN⟩
    rw [(hticks _).1]; exact List.getElem?_cons_zero

/-- The statement of C7 for a pool constructed from the view `y = 0`,
`height = 300` with a drop handler registered. -/
theorem drop_exactly_once_witness :
    ∃ o1, BallCollection.setupStart ratMath
        { BallCollection.new (0 : ℚ) 300 with hasDrop := true } 1 = some o1 ∧
      ∃ N, 0 < N ∧
      (o1.ticks N).2 = [Event.drop] ∧
      (∀ k, k < N → (o1.ticks k).2 = []) ∧
      (∀ k, k < N → ∃ b, (o1.ticks k).1.stock[0]? = some b ∧
        (b.dy < 0 ∨ b.y ≤ o1.ground)) ∧
      (∃ b, (o1.ticks N).1.stock[0]? = some b ∧ 0 ≤ b.dy ∧ o1.ground < b.y) :=
  drop_exactly_once ratMath { BallCollection.new (0 : ℚ) 300 with hasDrop := true } rfl
    (by norm_num [BallCollection.new])

/-! ## Mutual exclusion of the locks -/

theorem map_future_modify (d : Direction) (j : Nat) (bs : List (BallAnimator α)) :
    (bs.modify (fun b => { b with direction := d }) j).map (fun b => b.future)
      = bs.map (fun b => b.future) := by
  apply List.ext_getElem?
  intro i
  rw [List.getElem?_map, List.getElem?_map, List.getElem?_modify]
  cases bs[i]? with
  | none => rfl
  | some b =>
    by_cases hji : j = i
    · simp [hji]
    · simp [hji]

theorem tagAll_map_future (d : Direction) (idxs : List Nat) (bs : List (BallAnimator α)) :
    (BallCollection.tagAll d idxs bs).map (fun b => b.future) = bs.map (fun b => b.future) := by
  induction idxs generalizing bs with
  | nil => rfl
  | cons j rest ih =>
    unfold BallCollection.tagAll at ih ⊢
    rw [List.foldl_cons, ih, map_future_modify]

theorem directed_map_future (count : Nat) (bs : List (BallAnimator α)) :
    (BallCollection.directed count bs).map (fun b => b.future) = bs.map (fun b => b.future) := by
  unfold BallCollection.directed
  by_cases h1 : count % 2 = 1
  · simp only [h1, if_true, tagAll_map_future]
  · simp only [h1, if_false]
    split_ifs <;> simp only [tagAll_map_future]

theorem queueLength_eq_of_map_future (o o' : BallCollection α)
    (h : o'.stock.map (fun b => b.future) = o.stock.map (fun b => b.future)) (i : Nat) :
    o'.queueLength i = o.queueLength i := by
  have h1 := congrArg (fun l : List (List (Option (DOMPoint α))) => (l[i]?).map List.length) h
  simp only [List.getElem?_map, Option.map_map] at h1
  exact h1

theorem setDirections_queueLength (o : BallCollection α) (i : Nat) :
    o.setDirections.queueLength i = o.queueLength i := by
  apply queueLength_eq_of_map_future
  show (BallCollection.directed o.count (o.stock.take o.count) ++ o.stock.drop o.count).map _ = _
  rw [List.map_append, directed_map_future, ← List.map_append, List.take_append_drop]

theorem setBalls_one (M : JSMath α) (o o' : BallCollection α) (start : Nat)
    (h : o.setBalls M start 1 = some o') :
    o'.count = o.count ∧ ∀ i, i ≠ start → o'.stock[i]? = o.stock[i]? := by
  unfold BallCollection.setBalls at h
  simp only [BallCollection.setBallsLoop, Nat.add_zero] at h
  cases hs : o.stock[start]? with
  | none => simp [hs] at h
  | some b =>
    simp only [hs, Option.some.injEq] at h
    subst h
    refine ⟨rfl, fun i hi => ?_⟩
    show (o.stock.set start _)[i]? = _
    rw [List.getElem?_set]
    simp [Ne.symm hi]

theorem addBall_queueLength [FloorRing α] (M : JSMath α) (o o' : BallCollection α)
    (h : o.addBall M = some o') :
    o'.count = o.count + 1 ∧
    ∀ i n, i < o.count → o.queueLength i = some n → o'.queueLength i = some n := by
  unfold BallCollection.addBall at h
  simp only at h
  split at h
  · cases h
  · rename_i o4 hsb
    cases h
    obtain ⟨hcount, hother⟩ := setBalls_one M _ o4 _ hsb
    refine ⟨?_, fun i n hi hq => ?_⟩
    · show o4.count = _
      rw [hcount]
      split_ifs <;> rfl
    · rw [setDirections_queueLength]
      unfold BallCollection.queueLength at hq ⊢
      have hne : i ≠ (o.setSize (o.stage + 1)).count := by
        show i ≠ o.count
        omega
      rw [hother i hne]
      cases hb : o.stock[i]? with
      | none => rw [hb] at hq; cases hq
      | some b =>
        rw [hb] at hq
        have hlt : i < o.stock.length := by
          by_contra hcon
          rw [List.getElem?_eq_none (not_lt.mp hcon)] at hb
          cases hb
        have hold : (o.setSize (o.stage + 1)).stock = o.stock := rfl
        split_ifs
        · show (o.stock ++ [BallAnimator.fresh])[i]?.map _ = _
          rw [List.getElem?_append_left hlt, hb]; exact hq
        · show (o.stock)[i]?.map _ = _
          rw [hb]; exact hq

theorem drawNext_queueLength [FloorRing α] (o : BallCollection α) :
    o.drawNext.1.count = o.count ∧
    ∀ i, i < o.count → o.drawNext.1.queueLength i = (o.queueLength i).map (· - 1) := by
  refine ⟨rfl, fun i hi => ?_⟩
  unfold BallCollection.queueLength
  show ((((o.stock.take o.count).map (BallAnimator.setNext o)).map Prod.fst
    ++ o.stock.drop o.count)[i]?).map _ = _
  by_cases hlt : i < o.stock.length
  · rw [List.getElem?_append_left (by simp; omega)]
    simp only [List.getElem?_map, List.getElem?_take_of_lt hi, Option.map_map]
    cases o.stock[i]? with
    | none => rfl
    | some b =>
      simp only [Option.map_some', Function.comp_apply, setNext_future, List.length_tail]
  · rw [List.getElem?_eq_none (not_lt.mp hlt), List.getElem?_eq_none]
    · rfl
    · simp only [List.length_append, List.length_map, List.length_take, List.length_drop]
      omega

/-- What one call of `ArmAnimator.setNext` that does not raise changes: the
arm's queue loses its head, no ball's queue changes, and the lock is kept while
the queue is non-empty and cleared when it has just been emptied. -/
theorem arm_setNext_spec (M : JSMath α) (arm another arm' : ArmAnimator α)
    (o o' : BallCollection α) (h : ArmAnimator.setNext M arm another o = some (arm', o')) :
    o'.count = o.count ∧ (∀ i, o'.queueLength i = o.queueLength i) ∧
    arm'.future = arm.future.tail ∧
    ((arm'.lock = arm.lock ∧ (arm.future = [] ∨ arm'.future ≠ [])) ∨ arm'.lock = none) := by
  unfold ArmAnimator.setNext at h
  cases hf : arm.future with
  | nil =>
    simp only [hf, Option.some.injEq, Prod.mk.injEq] at h
    obtain ⟨h1, h2⟩ := h
    subst h1 h2
    exact ⟨rfl, fun _ => rfl, hf, Or.inl ⟨rfl, Or.inl rfl⟩⟩
  | cons point rest =>
    simp only [hf] at h
    by_cases hr : 0 < rest.length
    · simp only [hr, if_true, Option.some.injEq, Prod.mk.injEq] at h
      obtain ⟨h1, h2⟩ := h
      subst h1 h2
      refine ⟨rfl, fun _ => rfl, rfl, Or.inl ⟨rfl, Or.inr ?_⟩⟩
      exact List.ne_nil_of_length_pos hr
    · simp only [hr, if_false] at h
      cases hl : arm.lock with
      | none => simp [hl] at h
      | some i =>
        simp only [hl] at h
        cases hb : o.stock[i]? with
        | none => simp [hb] at h
        | some ball =>
          simp only [hb, Option.some.injEq, Prod.mk.injEq] at h
          obtain ⟨h1, h2⟩ := h
          subst h1 h2
          refine ⟨rfl, fun j => ?_, rfl, Or.inr rfl⟩
          unfold BallCollection.queueLength
          show ((o.stock.set i _)[j]?).map _ = _
          rw [List.getElem?_set]
          by_cases hij : i = j
          · subst hij
            have hlt : i < o.stock.length := by
              by_contra hcon
              rw [List.getElem?_eq_none (not_lt.mp hcon)] at hb
              cases hb
            simp only [hlt, if_true, hb, Option.map_some']
          · simp only [hij, if_false]

theorem arms_drawNext_spec (M : JSMath α) (c c' : ArmCollection α) (o o' : BallCollection α)
    (h : c.drawNext M o = some (c', o')) :
    o'.count = o.count ∧ (∀ i, o'.queueLength i = o.queueLength i) ∧
    ∀ side : Side, (c'.arm side).future = (c.arm side).future.tail ∧
      (((c'.arm side).lock = (c.arm side).lock ∧
          ((c.arm side).future = [] ∨ (c'.arm side).future ≠ [])) ∨
        (c'.arm side).lock = none) := by
  unfold ArmCollection.drawNext at h
  cases hr : ArmAnimator.setNext M c.right c.left o with
  | none => simp [hr] at h
  | some r1 =>
    obtain ⟨r, o1⟩ := r1
    simp only [hr] at h
    cases hl : ArmAnimator.setNext M c.left r o1 with
    | none => simp [hl] at h
    | some l1 =>
      obtain ⟨l, o2⟩ := l1
      simp only [hl, Option.some.injEq, Prod.mk.injEq] at h
      obtain ⟨h1, h2⟩ := h
      subst h1 h2
      obtain ⟨rc, rq, rf, rl⟩ := arm_setNext_spec M _ _ _ _ _ hr
      obtain ⟨lc, lq, lf, ll⟩ := arm_setNext_spec M _ _ _ _ _ hl
      refine ⟨lc.trans rc, fun i => (lq i).trans (rq i), fun side => ?_⟩
      cases side
      · exact ⟨rf, rl⟩
      · exact ⟨lf, ll⟩

theorem getFirstBall_queueLength (o : BallCollection α) (i : Nat)
    (h : o.getFirstBall = some i) : i < o.count ∧ o.queueLength i = some 0 := by
  obtain ⟨b, hmem⟩ := getFirstBall_mem o i h
  obtain ⟨hi, hb, hf⟩ := (mem_active_filter o i b).mp hmem
  refine ⟨hi, ?_⟩
  unfold BallCollection.queueLength
  rw [hb, Option.map_some', hf]
  rfl

/-- The lock invariant holds in every state reached by calls that complete,
provided it holds in the initial one. -/
theorem reachable_inv [FloorRing α] (M : JSMath α) (m0 m : MotionCreator α)
    (h0 : LockInv m0 ∧ LocksDistinct m0) (h : Reachable M m0 m) :
    LockInv m ∧ LocksDistinct m := by
  induction h with
  | init => exact h0
  | @setup m m' count follow _ hstep _ =>
    unfold MotionCreator.setup at hstep
    simp only at hstep
    split at hstep
    · cases hstep
    · cases hstep
      constructor
      · intro side i hl
        cases side <;> cases hl
      · intro i hi
        cases hi.1
  | @addBall m m' _ hstep ih =>
    unfold MotionCreator.addBall at hstep
    split at hstep
    · cases hstep
    · rename_i b hb
      cases hstep
      obtain ⟨hcount, hq⟩ := addBall_queueLength M _ _ hb
      refine ⟨fun side i hl => ?_, ih.2⟩
      obtain ⟨h1, h2, h3⟩ := ih.1 side i hl
      refine ⟨?_, hq i _ h1 h2, h3⟩
      show i < b.count
      omega
  | @drawNext m m' events _ hstep ih =>
    unfold MotionCreator.drawNext at hstep
    simp only at hstep
    split at hstep
    · cases hstep
    · rename_i arms balls harms
      cases hstep
      obtain ⟨bc, bq⟩ := drawNext_queueLength m.balls
      obtain ⟨ac, aq, aside⟩ := arms_drawNext_spec M _ _ _ _ harms
      constructor
      · intro side i hl
        obtain ⟨hfut, hlock⟩ := aside side
        rcases hlock with ⟨hsame, hne⟩ | hnone
        · have hl' : (m.arms.arm side).lock = some i := by rw [← hsame]; exact hl
          obtain ⟨h1, h2, h3⟩ := ih.1 side i hl'
          have hne' : (arms.arm side).future ≠ [] := by
            rcases hne with hnil | hne
            · rw [hnil] at h3; exact absurd h3 (Nat.lt_irrefl 0)
            · exact hne
          refine ⟨?_, ?_, List.length_pos.mpr hne'⟩
          · show i < balls.count
            rw [ac, bc]; exact h1
          · show balls.queueLength i = _
            rw [aq i, bq i h1, h2, hfut, List.length_tail]
            rfl
        · have hl' : (arms.arm side).lock = some i := hl
          rw [hnone] at hl'
          cases hl'
      · intro i hi
        have hr := (aside Side.right).2
        have hl := (aside Side.left).2
        rcases hr with ⟨hr, -⟩ | hr
        · rcases hl with ⟨hl, -⟩ | hl
          · exact ih.2 i ⟨hr ▸ hi.1, hl ▸ hi.2⟩
          · have := hi.2
            rw [show arms.left.lock = none from hl] at this
            cases this
        · have := hi.1
          rw [show arms.right.lock = none from hr] at this
          cases this
  | @moveArm m m' _ hstep ih =>
    unfold MotionCreator.moveArm at hstep
    split at hstep
    · cases hstep; exact ih
    · rename_i bi hfirst
      split at hstep
      · cases hstep
      · rename_i arms balls hset
        cases hstep
        obtain ⟨hbi, hq0⟩ := getFirstBall_queueLength m.balls bi hfirst
        obtain ⟨ball, hball, hcase⟩ := setArm_some _ _ _ _ _ _ hset
        rcases hcase with ⟨-, hc, ho⟩ | ⟨side, factor, first, follow, -, hfirstlen, -, -, hc, ho⟩
        · subst hc ho; exact ih
        have hlt : bi < m.balls.stock.length := by
          by_contra hcon
          rw [List.getElem?_eq_none (not_lt.mp hcon)] at hball
          cases hball
        have hnew : (arms.arm side).lock = some bi ∧
            (arms.arm side).future = first ++ follow := by
          rw [hc]
          show ((m.arms.setSide side _).arm side).lock = _ ∧
            ((m.arms.setSide side _).arm side).future = _
          rw [(arm_setSide m.arms side _).1]
          exact ⟨rfl, rfl⟩
        have hold : arms.arm side.another = m.arms.arm side.another := by
          rw [hc]
          show (m.arms.setSide side _).arm side.another = _
          rw [(arm_setSide m.arms side _).2]
        have hqnew : balls.queueLength bi = some (first ++ follow).length := by
          rw [ho]
          unfold BallCollection.queueLength
          show ((m.balls.stock.set bi _)[bi]?).map _ = _
          rw [List.getElem?_set]
          simp only [hlt, if_true, Option.map_some', BallAnimator.setFuture,
            List.length_append, List.length_replicate, List.length_map]
        have hqold : ∀ j, j ≠ bi → balls.queueLength j = m.balls.queueLength j := by
          intro j hj
          rw [ho]
          unfold BallCollection.queueLength
          show ((m.balls.stock.set bi _)[j]?).map _ = _
          rw [List.getElem?_set]
          simp only [Ne.symm hj, if_false]
        have hcnt : balls.count = m.balls.count := by rw [ho]
        have hpos : 0 < (first ++ follow).length := by
          rw [List.length_append, hfirstlen]; omega
        have hother : ∀ j, (m.arms.arm side.another).lock = some j → j ≠ bi := by
          intro j hj hjb
          obtain ⟨-, h2, h3⟩ := ih.1 side.another j hj
          rw [hjb, hq0] at h2
          have h4 := Option.some.inj h2
          omega
        have hsides : ∀ s : Side, s = side ∨ s = side.another := by
          intro s; cases s <;> cases side <;> simp [Side.another]
        constructor
        · intro s i hl
          rcases hsides s with hs | hs
          · subst hs
            rw [hnew.1] at hl
            have hib : i = bi := (Option.some.inj hl).symm
            rw [hib]
            refine ⟨?_, ?_, ?_⟩
            · show bi < balls.count
              rw [hcnt]; exact hbi
            · show balls.queueLength bi = _
              rw [hqnew, hnew.2]
            · rw [hnew.2]; exact hpos
          · subst hs
            have hl' : (m.arms.arm side.another).lock = some i := by
              rw [← hold]; exact hl
            obtain ⟨h1, h2, h3⟩ := ih.1 side.another i hl'
            refine ⟨?_, ?_, ?_⟩
            · show i < balls.count
              rw [hcnt]; exact h1
            · show balls.queueLength i = some (arms.arm side.another).future.length
              rw [hqold i (hother i hl'), hold]; exact h2
            · show 0 < (arms.arm side.another).future.length
              rw [hold]; exact h3
        · intro i hi
          have hr : (arms.arm Side.right).lock = some i := hi.1
          have hl : (arms.arm Side.left).lock = some i := hi.2
          cases side
          · rw [hnew.1] at hr
            have hl' : (m.arms.arm Side.right.another).lock = some i := by
              rw [← hold]; exact hl
            exact hother i hl' (Option.some.inj hr).symm
          · rw [hnew.1] at hl
            have hr' : (m.arms.arm Side.left.another).lock = some i := by
              rw [← hold]; exact hr
            exact hother i hr' (Option.some.inj hl).symm
  | @setEvent m name _ ih =>
    have hb : ∀ i, (m.setEvent name).balls.queueLength i = m.balls.queueLength i := by
      intro i
      unfold MotionCreator.setEvent
      split_ifs <;> rfl
    have hc : (m.setEvent name).balls.count = m.balls.count := by
      unfold MotionCreator.setEvent
      split_ifs <;> rfl
    have ha : (m.setEvent name).arms = m.arms := by
      unfold MotionCreator.setEvent
      split_ifs <;> rfl
    constructor
    · intro side i hl
      rw [ha] at hl ⊢
      rw [hb, hc]
      exact ih.1 side i hl
    · intro i hi
      rw [ha] at hi
      exact ih.2 i hi

/-- Mutual exclusion of the locks as long as no call raises: in every state
reached from construction (with freshly constructed arms) by calls of `setup`,
`addBall`, `drawNext`, `moveArm` and `setEvent` that all complete, the two arms
do not hold a lock on the same ball.  States left behind by a call that raises
are not covered. -/
theorem locks_exclusive [FloorRing α] (M : JSMath α) (viewY viewHeight : α)
    (rEllipse lEllipse : Ellipse α) (rHand rElbow lHand lElbow : DOMPoint α)
    (m : MotionCreator α)
    (h : Reachable M (MotionCreator.new M viewY viewHeight
        (ArmAnimator.new rEllipse rHand rElbow) (ArmAnimator.new lEllipse lHand lElbow)) m) :
    ∀ i : Nat, ¬ (m.arms.right.lock = some i ∧ m.arms.left.lock = some i) := by
  have h0 : LockInv (MotionCreator.new M viewY viewHeight
        (ArmAnimator.new rEllipse rHand rElbow) (ArmAnimator.new lEllipse lHand lElbow)) ∧
      LocksDistinct (MotionCreator.new M viewY viewHeight
        (ArmAnimator.new rEllipse rHand rElbow) (ArmAnimator.new lEllipse lHand lElbow)) := by
    constructor
    · intro side i hl
      cases side <;> cases hl
    · intro i hi
      cases hi.1
  exact (reachable_inv M _ m h0 h).2

/-- Mutual exclusion of the locks in the state reached by `setup(1)` followed
by `moveArm()`, in which the left arm holds ball `0`. -/
theorem locks_exclusive_witness :
    ∃ m, (sampleStart.setup ratMath (some 1) false).bind MotionCreator.moveArm = some m ∧
      m.arms.left.lock = some 0 ∧
      ∀ i : Nat, ¬ (m.arms.right.lock = some i ∧ m.arms.left.lock = some i) := by
  have hsome : ((sampleStart.setup ratMath (some 1) false).bind
      MotionCreator.moveArm).isSome = true := by with_unfolding_all rfl
  have hlock : ((sampleStart.setup ratMath (some 1) false).bind MotionCreator.moveArm).map
      (fun m => m.arms.left.lock) = some (some 0) := by with_unfolding_all rfl
  obtain ⟨m, hm⟩ := Option.isSome_iff_exists.mp hsome
  obtain ⟨m1, h1, h2⟩ := Option.bind_eq_some.mp hm
  rw [hm] at hlock
  exact ⟨m, hm, Option.some.inj hlock,
    locks_exclusive ratMath 0 300 sampleEllipse sampleEllipse
      (DOMPoint.xy (-50) 280) (DOMPoint.xy (-40) 250) (DOMPoint.xy 50 280) (DOMPoint.xy 40 250) m
      (Reachable.moveArm (Reachable.setup (some 1) false Reachable.init h1) h2)⟩

/-! ## Draining a queue of waypoints -/

theorem run_succ [FloorRing α] (o : BallCollection α) (b : BallAnimator α) (k : Nat) :
    (BallAnimator.run o (k + 1) b).1 = (BallAnimator.run o k (b.setNext o).1).1 := rfl

/-- Running a queue whose first `k + 1` entries have coordinates: after `k + 1`
calls the ball is at entry `k` and the queue has lost `k + 1` entries. -/
theorem run_waypoints [FloorRing α] (o : BallCollection α) (pts : List (DOMPoint α))
    (b : BallAnimator α) (hb : b.future = pts.map some) (k : Nat) (hk : k < pts.length) :
    (BallAnimator.run o (k + 1) b).1.future = (pts.drop (k + 1)).map some ∧
    ∃ p, pts[k]? = some p ∧ (BallAnimator.run o (k + 1) b).1.x = p.x ∧
      (BallAnimator.run o (k + 1) b).1.y = p.y := by
  induction k generalizing pts b with
  | zero =>
    cases pts with
    | nil => exact absurd hk (Nat.lt_irrefl 0)
    | cons p rest =>
      have hn : b.setNext o = ({ b with future := rest.map some, x := p.x, y := p.y },
          if (rest.map some).length = 0 ∧ o.hasScore = true ∧ 0 < p.z then
            [Event.score (BallAnimator.scoreOf o p)] else []) := by
        unfold BallAnimator.setNext
        rw [hb]
        rfl
      rw [run_succ, hn]
      exact ⟨rfl, p, List.getElem?_cons_zero, rfl, rfl⟩
  | succ k ih =>
    cases pts with
    | nil => exact absurd hk (Nat.not_lt_zero _)
    | cons p rest =>
      have hn : (b.setNext o).1.future = rest.map some := by
        rw [setNext_future, hb]; rfl
      have hk' : k < rest.length := by simpa using hk
      obtain ⟨h1, q, hq, hx, hy⟩ := ih rest (b.setNext o).1 hn hk'
      rw [run_succ]
      exact ⟨h1, q, by rw [List.getElem?_cons_succ]; exact hq, hx, hy⟩

/-- C13: for a ball whose queue holds `L ≥ 1` waypoints that all have
coordinates, after `L` calls of `setNext` the queue is empty and the ball is at
the last waypoint, and after every call `k` with `1 ≤ k ≤ L` the ball is at
the `k`-th waypoint. -/
theorem queue_drains_to_last [FloorRing α] (o : BallCollection α) (b : BallAnimator α)
    (pts : List (DOMPoint α)) (hL : 1 ≤ pts.length) (hb : b.future = pts.map some) :
    (BallAnimator.run o pts.length b).1.future = [] ∧
    (∃ last, pts.getLast? = some last ∧ (BallAnimator.run o pts.length b).1.x = last.x ∧
      (BallAnimator.run o pts.length b).1.y = last.y) ∧
    ∀ k, 1 ≤ k → k ≤ pts.length →
      ∃ p, pts[k - 1]? = some p ∧ (BallAnimator.run o k b).1.x = p.x ∧
        (BallAnimator.run o k b).1.y = p.y := by
  have hall : ∀ k, 1 ≤ k → k ≤ pts.length →
      (BallAnimator.run o k b).1.future = (pts.drop k).map some ∧
      ∃ p, pts[k - 1]? = some p ∧ (BallAnimator.run o k b).1.x = p.x ∧
        (BallAnimator.run o k b).1.y = p.y := by
    intro k h1 h2
    obtain ⟨j, rfl⟩ := Nat.exists_eq_succ_of_ne_zero (Nat.one_le_iff_ne_zero.mp h1)
    exact run_waypoints o pts b hb j (by omega)
  obtain ⟨hf, p, hp, hx, hy⟩ := hall pts.length hL (le_refl _)
  refine ⟨?_, ⟨p, ?_, hx, hy⟩, fun k h1 h2 => (hall k h1 h2).2⟩
  · rw [hf, List.drop_length]; rfl
  · rw [List.getLast?_eq_getElem?]; exact hp

/-- The statement of C13 for the sample ball with a queue of three waypoints. -/
theorem queue_drains_to_last_witness :
    (BallAnimator.run (poolOf sampleBall) 3
      { sampleBall with future := [some ⟨1, 2, 0, 1⟩, some ⟨3, 4, 0, 1⟩, some ⟨5, 6, 1, 0⟩] }).1.future
      = [] ∧
    (∃ last, ([⟨1, 2, 0, 1⟩, ⟨3, 4, 0, 1⟩, ⟨5, 6, 1, 0⟩] : List (DOMPoint ℚ)).getLast? = some last ∧
      (BallAnimator.run (poolOf sampleBall) 3
        { sampleBall with
          future := [some ⟨1, 2, 0, 1⟩, some ⟨3, 4, 0, 1⟩, some ⟨5, 6, 1, 0⟩] }).1.x = last.x ∧
      (BallAnimator.run (poolOf sampleBall) 3
        { sampleBall with
          future := [some ⟨1, 2, 0, 1⟩, some ⟨3, 4, 0, 1⟩, some ⟨5, 6, 1, 0⟩] }).1.y = last.y) :=
  have h := queue_drains_to_last (poolOf sampleBall)
    { sampleBall with future := [some ⟨1, 2, 0, 1⟩, some ⟨3, 4, 0, 1⟩, some ⟨5, 6, 1, 0⟩] }
    [⟨1, 2, 0, 1⟩, ⟨3, 4, 0, 1⟩, ⟨5, 6, 1, 0⟩] (by decide) rfl
  ⟨h.1, h.2.1⟩

/-! ## Details of an assignment -/

theorem firstLoop_getElem? (dx dy : α) (n : Nat) (x y : α) (k : Nat) (hk : k < n) :
    (ArmCollection.firstLoop dx dy n x y).1[k]?
      = some (DOMPoint.xy (x + ((k : α) + 1) * dx) (y + ((k : α) + 1) * dy)) := by
  induction n generalizing x y k with
  | zero => exact absurd hk (Nat.not_lt_zero k)
  | succ n ih =>
    cases k with
    | zero =>
      simp only [ArmCollection.firstLoop, List.getElem?_cons_zero, Nat.cast_zero, zero_add,
        one_mul]
    | succ k =>
      simp only [ArmCollection.firstLoop, List.getElem?_cons_succ]
      rw [ih (x + dx) (y + dy) k (by omega)]
      push_cast
      congr 2 <;> ring

/-- The result of a `setArm` call that finds a free arm, with the constructor's
orbit table and a count of at least one. -/
theorem setArm_detail (M : JSMath α) (c : ArmCollection α) (o : BallCollection α)
    (bi count : Nat) (ball : BallAnimator α) (side : Side) (factor : α)
    (horb : c.orbits = (List.range 5).map (ArmCollection.orbit M)) (hcount : 1 ≤ count)
    (hball : o.stock[bi]? = some ball) (hchoose : c.choose ball = some (side, factor)) :
    ∃ follow : List (DOMPoint α),
      follow.length = 4 * max 1 (6 - count) + 1 ∧
      (∀ q ∈ follow, q.z = factor ∧ q.w = (if some side ≠ c.prev then 1 else 0)) ∧
      c.setArm o bi count = some
        ({ (c.setSide side (ArmAnimator.setFuture { c.arm side with lock := some bi }
              ((ArmCollection.firstLoop
                (((ball.getPosition o ((max 1 (6 - count) : Nat) : α)).x
                  - (c.arm side).current.hand.x) / ((max 1 (6 - count) : Nat) : α))
                (((ball.getPosition o ((max 1 (6 - count) : Nat) : α)).y
                  - (c.arm side).current.hand.y) / ((max 1 (6 - count) : Nat) : α))
                (max 1 (6 - count)) (c.arm side).current.hand.x
                (c.arm side).current.hand.y).1 ++ follow)))
            with prev := some side },
         { o with stock := (o.stock.set bi (ball.setFuture
              (List.replicate (max 1 (6 - count)) none ++ follow.map some))) }) := by
  have hd5 : ¬ (5 < max 1 (6 - count)) := by omega
  have hget : c.orbits[5 - max 1 (6 - count)]?
      = some (ArmCollection.orbit M (5 - max 1 (6 - count))) := by
    rw [horb]; exact orbits_getElem? M _ (by omega)
  unfold ArmCollection.setArm
  simp only [hball, hchoose, hd5, if_false, hget, firstLoop_length]
  refine ⟨_, ?_, ?_, rfl⟩
  · rw [List.length_map, orbit_length]; omega
  · intro q hq
    rw [List.mem_map] at hq
    obtain ⟨e, -, rfl⟩ := hq
    exact ⟨rfl, rfl⟩

/-- Free fall through `k` placeholders: the closed form of the position. -/
theorem run_placeholders [FloorRing α] (o : BallCollection α) (haccel : o.accel = 2 * o.half)
    (k : Nat) (b : BallAnimator α) (rest : List (Option (DOMPoint α)))
    (hb : b.future = List.replicate k none ++ rest) :
    (BallAnimator.run o k b).1.x = b.x + b.dx * k ∧
    (BallAnimator.run o k b).1.y = b.y + (b.dy * k + o.half * k * (k - 1)) ∧
    (BallAnimator.run o k b).1.dx = b.dx ∧
    (BallAnimator.run o k b).1.dy = b.dy + o.accel * k ∧
    (BallAnimator.run o k b).1.future = rest := by
  induction k generalizing b with
  | zero =>
    refine ⟨?_, ?_, rfl, ?_, ?_⟩
    · show b.x = _; simp
    · show b.y = _; simp
    · show b.dy = _; simp
    · show b.future = _; rw [hb]; rfl
  | succ k ih =>
    have hfut : b.future = none :: (List.replicate k none ++ rest) := by
      rw [hb, List.replicate_succ]; rfl
    have hn : (b.setNext o).1
        = BallAnimator.step o { b with future := List.replicate k none ++ rest } := by
      unfold BallAnimator.setNext
      rw [hfut]
      simp only
      unfold BallAnimator.fall
      simp only
      split_ifs <;> rfl
    obtain ⟨hx, hy, hdx, hdy, hf⟩ := ih (b.setNext o).1 (by rw [hn]; rfl)
    rw [run_succ]
    rw [hx, hy, hdx, hdy, hf, hn]
    simp only [BallAnimator.step, BallAnimator.getPosition, one_ne_zero, if_false]
    push_cast
    rw [haccel]
    refine ⟨by ring, by ring, trivial, by ring, trivial⟩

/-- C16: after a successful `setArm` with `delay = max(1, 6 - count)` (and
`accel = 2 * half`), waypoint number `delay` of the chosen arm's queue has the
coordinates of `getPosition(delay)`, and `delay` calls of `setNext` on the ball,
which consume its `delay` placeholders by free fall, bring the ball to exactly
that point. -/
theorem interception_point [FloorRing α] (M : JSMath α) (c : ArmCollection α)
    (o : BallCollection α) (bi count : Nat) (ball : BallAnimator α) (side : Side) (factor : α)
    (horb : c.orbits = (List.range 5).map (ArmCollection.orbit M)) (hcount : 1 ≤ count)
    (hball : o.stock[bi]? = some ball) (hchoose : c.choose ball = some (side, factor))
    (haccel : o.accel = 2 * o.half) :
    ∃ c' o' ball' p, c.setArm o bi count = some (c', o') ∧ o'.stock[bi]? = some ball' ∧
      (c'.arm side).future[max 1 (6 - count) - 1]? = some p ∧
      p.x = (ball.getPosition o ((max 1 (6 - count) : Nat) : α)).x ∧
      p.y = (ball.getPosition o ((max 1 (6 - count) : Nat) : α)).y ∧
      (BallAnimator.run o' (max 1 (6 - count)) ball').1.x = p.x ∧
      (BallAnimator.run o' (max 1 (6 - count)) ball').1.y = p.y := by
  obtain ⟨follow, -, -, hset⟩ := setArm_detail M c o bi count ball side factor horb hcount
    hball hchoose
  have hbi : bi < o.stock.length := by
    by_contra hcon
    rw [List.getElem?_eq_none (not_lt.mp hcon)] at hball
    cases hball
  have hd1 : max 1 (6 - count) - 1 < max 1 (6 - count) := by omega
  have hdne : ((max 1 (6 - count) : Nat) : α) ≠ 0 := by
    have : 0 < max 1 (6 - count) := by omega
    exact_mod_cast this.ne'
  have hcast : (((max 1 (6 - count) - 1 : Nat) : α) + 1) = ((max 1 (6 - count) : Nat) : α) := by
    have : max 1 (6 - count) - 1 + 1 = max 1 (6 - count) := by omega
    exact_mod_cast this
  obtain ⟨gx, gy, -⟩ := getPosition_nat o ball (max 1 (6 - count))
  refine ⟨_, _, ball.setFuture (List.replicate (max 1 (6 - count)) none ++ follow.map some),
    DOMPoint.xy (ball.getPosition o ((max 1 (6 - count) : Nat) : α)).x
      (ball.getPosition o ((max 1 (6 - count) : Nat) : α)).y, hset, ?_, ?_, rfl, rfl, ?_⟩
  · simp only [List.getElem?_set, hbi, if_true]
  · show (((c.setSide side _).arm side).future)[_]? = _
    rw [(arm_setSide c side _).1]
    show (_ ++ follow)[_]? = _
    rw [List.getElem?_append_left (by rw [firstLoop_length]; exact hd1),
      firstLoop_getElem? _ _ _ _ _ _ hd1, hcast]
    congr 2
    · field_simp
    · field_simp
  · obtain ⟨rx, ry, -⟩ := run_placeholders
      { o with stock := (o.stock.set bi (ball.setFuture
          (List.replicate (max 1 (6 - count)) none ++ follow.map some))) }
      haccel (max 1 (6 - count))
      (ball.setFuture (List.replicate (max 1 (6 - count)) none ++ follow.map some))
      (follow.map some) rfl
    rw [rx, ry]
    exact ⟨gx.symm, gy.symm⟩

/-- The statement of C16 for the sample ball and arms with one active ball
(`delay = 5`). -/
theorem interception_point_witness :
    ∃ c' o' ball' p, sampleArms.setArm (poolOf sampleBall) 0 1 = some (c', o') ∧
      o'.stock[0]? = some ball' ∧
      (c'.arm Side.left).future[max 1 (6 - 1) - 1]? = some p ∧
      p.x = (sampleBall.getPosition (poolOf sampleBall) ((max 1 (6 - 1) : Nat) : ℚ)).x ∧
      p.y = (sampleBall.getPosition (poolOf sampleBall) ((max 1 (6 - 1) : Nat) : ℚ)).y ∧
      (BallAnimator.run o' (max 1 (6 - 1)) ball').1.x = p.x ∧
      (BallAnimator.run o' (max 1 (6 - 1)) ball').1.y = p.y :=
  interception_point ratMath sampleArms (poolOf sampleBall) 0 1 sampleBall Side.left 1
    rfl (le_refl 1) rfl
    (by simp [ArmCollection.choose, ArmCollection.arm, sampleArms, ArmCollection.new,
          ArmAnimator.new, sampleBall])
    (by norm_num [poolOf, samplePool, BallCollection.new])

/-! ## Escalation to the paired arm -/

/-- C12: when the arm on the ball's side (right if `ball.x < 0`, else left) is
busy, a call of `setArm` with the paired arm idle assigns the ball to the
paired arm with multiplier `z = 2` on every queued follow waypoint, leaving the
busy arm as it was; with the paired arm busy too the call returns without
changing the arms or the balls. -/
theorem setArm_escalation (M : JSMath α) (c : ArmCollection α) (o : BallCollection α)
    (bi count : Nat) (ball : BallAnimator α) (hball : o.stock[bi]? = some ball)
    (hbusy : 0 < (c.arm (if ball.x < 0 then Side.right else Side.left)).future.length) :
    ((c.arm (if ball.x < 0 then Side.right else Side.left).another).future = [] →
      c.orbits = (List.range 5).map (ArmCollection.orbit M) → 1 ≤ count →
      ∃ c' o' ball', c.setArm o bi count = some (c', o') ∧
        (c'.arm (if ball.x < 0 then Side.right else Side.left).another).lock = some bi ∧
        c'.arm (if ball.x < 0 then Side.right else Side.left)
          = c.arm (if ball.x < 0 then Side.right else Side.left) ∧
        c'.prev = some (if ball.x < 0 then Side.right else Side.left).another ∧
        o'.stock[bi]? = some ball' ∧
        ball'.future.length = 5 * max 1 (6 - count) + 1 ∧
        (∀ q, some q ∈ ball'.future → q.z = 2) ∧
        (∀ i q, max 1 (6 - count) ≤ i →
          (c'.arm (if ball.x < 0 then Side.right else Side.left).another).future[i]? = some q →
          q.z = 2)) ∧
    (0 < (c.arm (if ball.x < 0 then Side.right else Side.left).another).future.length →
      c.setArm o bi count = some (c, o)) := by
  constructor
  · intro hidle horb hcount
    have hchoose : c.choose ball
        = some ((if ball.x < 0 then Side.right else Side.left).another, 2) := by
      unfold ArmCollection.choose
      simp only [hbusy, if_true, hidle, List.length_nil, lt_self_iff_false, if_false]
    obtain ⟨follow, hlen, hz, hset⟩ := setArm_detail M c o bi count ball _ 2 horb hcount
      hball hchoose
    have hbi : bi < o.stock.length := by
      by_contra hcon
      rw [List.getElem?_eq_none (not_lt.mp hcon)] at hball
      cases hball
    have hanother : ∀ s : Side, s.another.another = s := by
      intro s; cases s <;> rfl
    refine ⟨_, _, ball.setFuture (List.replicate (max 1 (6 - count)) none ++ follow.map some),
      hset, ?_, ?_, rfl, ?_, ?_, ?_, ?_⟩
    · show ((c.setSide _ _).arm _).lock = _
      rw [(arm_setSide c _ _).1]; rfl
    · show (c.setSide _ _).arm _ = _
      have h2 := (arm_setSide c (if ball.x < 0 then Side.right else Side.left).another
        (ArmAnimator.setFuture
          { c.arm (if ball.x < 0 then Side.right else Side.left).another with lock := some bi }
          ((ArmCollection.firstLoop
            (((ball.getPosition o ((max 1 (6 - count) : Nat) : α)).x
              - (c.arm (if ball.x < 0 then Side.right else Side.left).another).current.hand.x)
              / ((max 1 (6 - count) : Nat) : α))
            (((ball.getPosition o ((max 1 (6 - count) : Nat) : α)).y
              - (c.arm (if ball.x < 0 then Side.right else Side.left).another).current.hand.y)
              / ((max 1 (6 - count) : Nat) : α))
            (max 1 (6 - count))
            (c.arm (if ball.x < 0 then Side.right else Side.left).another).current.hand.x
            (c.arm (if ball.x < 0 then Side.right
              else Side.left).another).current.hand.y).1 ++ follow))).2
      rw [hanother] at h2
      exact h2
    · simp only [List.getElem?_set, hbi, if_true]
    · simp only [BallAnimator.setFuture, List.length_append, List.length_replicate,
        List.length_map, hlen]
      omega
    · intro q hq
      simp only [BallAnimator.setFuture, List.mem_append, List.mem_replicate, List.mem_map] at hq
      rcases hq with ⟨-, hq⟩ | ⟨q', hq', hqq⟩
      · cases hq
      · cases hqq
        exact (hz q hq').1
    · intro i q hi hq
      have hq' : (((c.setSide _ _).arm _).future)[i]? = some q := hq
      rw [(arm_setSide c _ _).1] at hq'
      have hq'' : (_ ++ follow)[i]? = some q := hq'
      rw [List.getElem?_append_right (by rw [firstLoop_length]; exact hi)] at hq''
      exact (hz q (List.getElem?_mem hq'')).1
  · intro hbusy2
    unfold ArmCollection.setArm
    have hchoose : c.choose ball = none := by
      unfold ArmCollection.choose
      simp only [hbusy, if_true, hbusy2]
    simp only [hball, hchoose]

/-- The statement of C12 for the sample ball (on the left side) with the left
arm busy: with the right arm idle the ball goes to the right arm, and with both
arms busy nothing changes. -/
theorem setArm_escalation_witness :
    (∃ c' o' ball', leftBusyArms.setArm (poolOf sampleBall) 0 1 = some (c', o') ∧
        (c'.arm (if sampleBall.x < 0 then Side.right else Side.left).another).lock = some 0 ∧
        c'.arm (if sampleBall.x < 0 then Side.right else Side.left)
          = leftBusyArms.arm (if sampleBall.x < 0 then Side.right else Side.left) ∧
        c'.prev = some (if sampleBall.x < 0 then Side.right else Side.left).another ∧
        o'.stock[0]? = some ball' ∧
        ball'.future.length = 5 * max 1 (6 - 1) + 1 ∧
        (∀ q, some q ∈ ball'.future → q.z = 2) ∧
        (∀ i q, max 1 (6 - 1) ≤ i →
          (c'.arm (if sampleBall.x < 0 then Side.right else Side.left).another).future[i]?
            = some q → q.z = 2)) ∧
    bothBusyArms.setArm (poolOf sampleBall) 0 1 = some (bothBusyArms, poolOf sampleBall) :=
  ⟨(setArm_escalation ratMath leftBusyArms (poolOf sampleBall) 0 1 sampleBall rfl
      (by decide)).1 rfl rfl (le_refl 1),
   (setArm_escalation ratMath bothBusyArms (poolOf sampleBall) 0 1 sampleBall rfl
      (by decide)).2 (by decide)⟩

/-! ## Choice of the arm and the previously assigned arm -/

/-- C11 fails on the run `setup(1)`, `moveArm()`, `setup()`, `moveArm()`: the
first assignment goes to the left arm (queue of `26`, right arm untouched);
after the restart the previously assigned arm is still the left one and both
arms are idle; the second assignment goes to the left arm again and the idle
right arm is not used. -/
theorem alternation_counterexample :
    afterFirstAssignment.map
        (fun m => (m.arms.left.lock, m.arms.left.future.length, m.arms.right.lock))
      = some (some 0, 26, none) ∧
    afterRestart.map
        (fun m => (m.arms.prev, m.arms.right.future.length, m.arms.left.future.length))
      = some (some Side.left, 0, 0) ∧
    afterSecondAssignment.map
        (fun m => (m.arms.left.lock, m.arms.left.future.length, m.arms.right.lock,
          m.arms.right.future.length))
      = some (some 0, 26, none, 0) := by
  refine ⟨?_, ?_, ?_⟩ <;> with_unfolding_all rfl

/-- C11 as amended: the arm chosen by `setArm` does not depend on the
previously assigned arm; it is the arm on the ball's side (right if
`ball.x < 0`, else left) when that arm is idle, and the paired arm when that
arm is busy and the paired arm is idle.  The previously assigned arm only
determines the weight `w` of the queued follow waypoints: `1` if the chosen arm
differs from it and `0` if it is the same; the chosen arm becomes the
previously assigned one. -/
theorem choose_by_side (M : JSMath α) (c : ArmCollection α) (o : BallCollection α)
    (bi count : Nat) (ball : BallAnimator α) :
    (∀ p : Option Side, ArmCollection.choose { c with prev := p } ball = c.choose ball) ∧
    ((c.arm (if ball.x < 0 then Side.right else Side.left)).future = [] →
      c.choose ball = some (if ball.x < 0 then Side.right else Side.left, 1)) ∧
    (0 < (c.arm (if ball.x < 0 then Side.right else Side.left)).future.length →
      (c.arm (if ball.x < 0 then Side.right else Side.left).another).future = [] →
      c.choose ball = some ((if ball.x < 0 then Side.right else Side.left).another, 2)) ∧
    (∀ (side : Side) (factor : α),
      c.orbits = (List.range 5).map (ArmCollection.orbit M) → 1 ≤ count →
      o.stock[bi]? = some ball → c.choose ball = some (side, factor) →
      ∃ c' o' ball', c.setArm o bi count = some (c', o') ∧ c'.prev = some side ∧
        (c'.arm side).lock = some bi ∧ o'.stock[bi]? = some ball' ∧
        ∀ q, some q ∈ ball'.future → q.w = (if some side ≠ c.prev then 1 else 0)) := by
  refine ⟨fun p => ?_, fun hidle => ?_, fun hbusy hidle => ?_, ?_⟩
  · unfold ArmCollection.choose
    cases hs : (if ball.x < 0 then Side.right else Side.left) <;> rfl
  · unfold ArmCollection.choose
    simp only [hidle, List.length_nil, lt_self_iff_false, if_false]
  · unfold ArmCollection.choose
    simp only [hbusy, if_true, hidle, List.length_nil, lt_self_iff_false, if_false]
  · intro side factor horb hcount hball hchoose
    obtain ⟨follow, -, hw, hset⟩ := setArm_detail M c o bi count ball side factor horb hcount
      hball hchoose
    have hbi : bi < o.stock.length := by
      by_contra hcon
      rw [List.getElem?_eq_none (not_lt.mp hcon)] at hball
      cases hball
    refine ⟨_, _, ball.setFuture (List.replicate (max 1 (6 - count)) none ++ follow.map some),
      hset, rfl, ?_, ?_, ?_⟩
    · show ((c.setSide _ _).arm _).lock = _
      rw [(arm_setSide c _ _).1]; rfl
    · simp only [List.getElem?_set, hbi, if_true]
    · intro q hq
      simp only [BallAnimator.setFuture, List.mem_append, List.mem_replicate, List.mem_map] at hq
      rcases hq with ⟨-, hq⟩ | ⟨q', hq', hqq⟩
      · cases hq
      · cases hqq
        exact (hw q hq').2

/-- The amended C11 for the sample ball (on the left side) and idle sample arms
whose previously assigned arm is the left one: the left arm is chosen again. -/
theorem choose_by_side_witness :
    ({ sampleArms with prev := some Side.left } : ArmCollection ℚ).choose sampleBall
      = some (if sampleBall.x < 0 then Side.right else Side.left, 1) :=
  (choose_by_side ratMath { sampleArms with prev := some Side.left } (poolOf sampleBall) 0 1
    sampleBall).2.1 rfl

/-! ## Active count and allocated balls -/

theorem setBallsLoop_length (launcher dx dy : α) (start n i : Nat) (dir : α)
    (stock stock' : List (BallAnimator α))
    (h : BallCollection.setBallsLoop launcher dx dy start n i dir stock = some stock') :
    stock'.length = stock.length ∧ (0 < n → start + i + n ≤ stock.length) := by
  induction n generalizing i dir stock with
  | zero =>
    simp only [BallCollection.setBallsLoop, Option.some.injEq] at h
    subst h
    exact ⟨rfl, fun h0 => absurd h0 (Nat.lt_irrefl 0)⟩
  | succ n ih =>
    simp only [BallCollection.setBallsLoop] at h
    cases hb : stock[start + i]? with
    | none => simp [hb] at h
    | some b =>
      simp only [hb] at h
      obtain ⟨hlen, hbound⟩ := ih _ _ _ h
      rw [List.length_set] at hlen hbound
      have hlt : start + i < stock.length := by
        by_contra hcon
        rw [List.getElem?_eq_none (not_lt.mp hcon)] at hb
        cases hb
      refine ⟨hlen, fun _ => ?_⟩
      rcases Nat.eq_zero_or_pos n with hn | hn
      · omega
      · have := hbound hn
        omega

theorem setDirections_length (o : BallCollection α) :
    o.setDirections.stock.length = o.stock.length ∧ o.setDirections.count = o.count := by
  refine ⟨?_, rfl⟩
  show (BallCollection.directed o.count (o.stock.take o.count) ++ o.stock.drop o.count).length = _
  rw [List.length_append, directed_length, ← List.length_append, List.take_append_drop]

/-- Every pool operation that completes leaves the active count within the
allocated balls. -/
theorem count_le_stock_of_complete [FloorRing α] (M : JSMath α) (o o' : BallCollection α)
    (count : Nat)
    (h : o.setupStart M count = some o' ∨ o.setupRestart M = some o' ∨
      o.setupSpeed M count = some o' ∨ o.addBall M = some o') :
    o'.count ≤ o'.stock.length := by
  rcases h with h | h | h | h
  · unfold BallCollection.setupStart at h
    simp only at h
    split at h
    · cases h
    · rename_i o6 hsb
      cases h
      unfold BallCollection.setBalls at hsb
      simp only at hsb
      split at hsb
      · cases hsb
      · rename_i stock' hloop
        cases hsb
        obtain ⟨hlen, -⟩ := setBallsLoop_length _ _ _ _ _ _ _ _ _ hloop
        rw [(setDirections_length _).1, (setDirections_length _).2]
        show count ≤ stock'.length
        rw [hlen]
        show count ≤ (o.stock ++ List.replicate (count - o.stock.length) _).length
        rw [List.length_append, List.length_replicate]
        omega
  · unfold BallCollection.setupRestart at h
    split at h
    · cases h
    · rename_i o1 hsb
      cases h
      unfold BallCollection.setBalls at hsb
      simp only at hsb
      split at hsb
      · cases hsb
      · rename_i stock' hloop
        cases hsb
        obtain ⟨hlen, hbound⟩ := setBallsLoop_length _ _ _ _ _ _ _ _ _ hloop
        rw [(setDirections_length _).1, (setDirections_length _).2]
        show o.count ≤ stock'.length
        rw [hlen]
        rcases Nat.eq_zero_or_pos o.count with hz | hp
        · omega
        · have := hbound hp
          omega
  · unfold BallCollection.setupSpeed at h
    simp only at h
    split at h
    · cases h
    · rename_i hguard
      cases h
      rw [(setDirections_length _).1, (setDirections_length _).2]
      show (o.setupSpeedHead count).count ≤
        (((o.setupSpeedHead count).stock.take (o.setupSpeedHead count).count).map _ ++
          (o.setupSpeedHead count).stock.drop (o.setupSpeedHead count).count).length
      rw [List.length_append, List.length_map, ← List.length_append, List.take_append_drop]
      exact not_lt.mp hguard
  · unfold BallCollection.addBall at h
    simp only at h
    split at h
    · cases h
    · rename_i o4 hsb
      cases h
      unfold BallCollection.setBalls at hsb
      simp only at hsb
      split at hsb
      · cases hsb
      · rename_i stock' hloop
        cases hsb
        obtain ⟨hlen, hbound⟩ := setBallsLoop_length _ _ _ _ _ _ _ _ _ hloop
        rw [(setDirections_length _).1, (setDirections_length _).2]
        have := hbound Nat.one_pos
        show _ ≤ stock'.length
        rw [hlen]
        split_ifs at this ⊢ <;> exact this

/-- C14 fails for `setupSpeed`: after `setupStart(3)` the call `setupSpeed(5)`
enters its loop with `count = 5` while only `3` balls are allocated, and the
loop raises on the missing ball `#stock[3]`. -/
theorem setupSpeed_beyond_stock :
    threeBalls.map (fun o => ((o.setupSpeedHead 5).count, (o.setupSpeedHead 5).stock.length,
        (o.setupSpeed ratMath 5).isSome))
      = some (5, 3, false) := by
  with_unfolding_all rfl

/-! ## A tick does not raise -/

theorem arm_setNext_busy (M : JSMath α) (arm another arm' : ArmAnimator α)
    (o o' : BallCollection α) (h : ArmAnimator.setNext M arm another o = some (arm', o'))
    (hne : arm'.future ≠ []) : arm'.lock = arm.lock := by
  unfold ArmAnimator.setNext at h
  cases hf : arm.future with
  | nil =>
    simp only [hf, Option.some.injEq, Prod.mk.injEq] at h
    rw [← h.1]
  | cons point rest =>
    simp only [hf] at h
    by_cases hr : 0 < rest.length
    · simp only [hr, if_true, Option.some.injEq, Prod.mk.injEq] at h
      rw [← h.1]
    · simp only [hr, if_false] at h
      cases hl : arm.lock with
      | none => simp [hl] at h
      | some i =>
        simp only [hl] at h
        cases hb : o.stock[i]? with
        | none => simp [hb] at h
        | some ball =>
          simp only [hb, Option.some.injEq, Prod.mk.injEq] at h
          exfalso
          apply hne
          rw [← h.1]
          exact List.length_eq_zero.mp (Nat.eq_zero_of_not_pos hr)

/-- `ArmAnimator.setNext` does not raise when a busy arm holds a lock on an
existing ball. -/
theorem arm_setNext_isSome (M : JSMath α) (arm another : ArmAnimator α) (o : BallCollection α)
    (h : arm.future ≠ [] → ∃ i n, arm.lock = some i ∧ o.queueLength i = some n) :
    ∃ r, ArmAnimator.setNext M arm another o = some r := by
  unfold ArmAnimator.setNext
  cases hf : arm.future with
  | nil => exact ⟨_, rfl⟩
  | cons point rest =>
    simp only
    by_cases hr : 0 < rest.length
    · simp only [hr, if_true]
      exact ⟨_, rfl⟩
    · simp only [hr, if_false]
      obtain ⟨i, n, hl, hq⟩ := h (by rw [hf]; exact List.cons_ne_nil _ _)
      unfold BallCollection.queueLength at hq
      cases hb : o.stock[i]? with
      | none => rw [hb] at hq; cases hq
      | some ball =>
        simp only [hl, hb]
        exact ⟨_, rfl⟩

theorem arms_drawNext_isSome (M : JSMath α) (c : ArmCollection α) (o : BallCollection α)
    (h : ∀ side : Side, (c.arm side).future ≠ [] →
      ∃ i n, (c.arm side).lock = some i ∧ o.queueLength i = some n) :
    ∃ r, c.drawNext M o = some r := by
  unfold ArmCollection.drawNext
  obtain ⟨⟨r, o1⟩, hr⟩ := arm_setNext_isSome M c.right c.left o (h Side.right)
  simp only [hr]
  obtain ⟨-, hq, -, -⟩ := arm_setNext_spec M _ _ _ _ _ hr
  have hl : c.left.future ≠ [] → ∃ i n, c.left.lock = some i ∧ o1.queueLength i = some n := by
    intro hne
    obtain ⟨i, n, h1, h2⟩ := h Side.left hne
    exact ⟨i, n, h1, by rw [hq i]; exact h2⟩
  obtain ⟨⟨l, o2⟩, hl'⟩ := arm_setNext_isSome M c.left r o1 hl
  simp only [hl']
  exact ⟨_, rfl⟩

/-- In every reachable state an arm with a non-empty queue holds a lock. -/
theorem reachable_busy_locked [FloorRing α] (M : JSMath α) (m0 m : MotionCreator α)
    (h0 : BusyLocked m0) (h : Reachable M m0 m) : BusyLocked m := by
  induction h with
  | init => exact h0
  | @setup m m' count follow _ hstep _ =>
    unfold MotionCreator.setup at hstep
    simp only at hstep
    split at hstep
    · cases hstep
    · cases hstep
      intro side hne
      cases side <;> exact absurd rfl hne
  | @addBall m m' _ hstep ih =>
    unfold MotionCreator.addBall at hstep
    split at hstep
    · cases hstep
    · cases hstep
      exact ih
  | @drawNext m m' events _ hstep ih =>
    unfold MotionCreator.drawNext at hstep
    simp only at hstep
    split at hstep
    · cases hstep
    · rename_i arms balls harms
      cases hstep
      intro side hne
      unfold ArmCollection.drawNext at harms
      cases hr : ArmAnimator.setNext M m.arms.right m.arms.left m.balls.drawNext.1 with
      | none => simp [hr] at harms
      | some r1 =>
        obtain ⟨r, o1⟩ := r1
        simp only [hr] at harms
        cases hl : ArmAnimator.setNext M m.arms.left r o1 with
        | none => simp [hl] at harms
        | some l1 =>
          obtain ⟨l, o2⟩ := l1
          simp only [hl, Option.some.injEq, Prod.mk.injEq] at harms
          obtain ⟨h1, -⟩ := harms
          subst h1
          cases side
          · have hne' : r.future ≠ [] := hne
            have hlock := arm_setNext_busy M _ _ _ _ _ hr hne'
            have hold : m.arms.right.future ≠ [] := by
              intro hnil
              have := (arm_setNext_spec M _ _ _ _ _ hr).2.2.1
              rw [hnil] at this
              exact hne' this
            obtain ⟨i, hi⟩ := ih Side.right hold
            exact ⟨i, hlock.trans hi⟩
          · have hne' : l.future ≠ [] := hne
            have hlock := arm_setNext_busy M _ _ _ _ _ hl hne'
            have hold : m.arms.left.future ≠ [] := by
              intro hnil
              have := (arm_setNext_spec M _ _ _ _ _ hl).2.2.1
              rw [hnil] at this
              exact hne' this
            obtain ⟨i, hi⟩ := ih Side.left hold
            exact ⟨i, hlock.trans hi⟩
  | @moveArm m m' _ hstep ih =>
    unfold MotionCreator.moveArm at hstep
    split at hstep
    · cases hstep; exact ih
    · rename_i bi hfirst
      split at hstep
      · cases hstep
      · rename_i arms balls hset
        cases hstep
        obtain ⟨ball, hball, hcase⟩ := setArm_some _ _ _ _ _ _ hset
        rcases hcase with ⟨-, hc, ho⟩ | ⟨side, factor, first, follow, -, -, -, -, hc, -⟩
        · subst hc ho; exact ih
        have hnew : (arms.arm side).lock = some bi := by
          rw [hc]
          show ((m.arms.setSide side _).arm side).lock = _
          rw [(arm_setSide m.arms side _).1]
          rfl
        have hold : arms.arm side.another = m.arms.arm side.another := by
          rw [hc]
          show (m.arms.setSide side _).arm side.another = _
          rw [(arm_setSide m.arms side _).2]
        have hsides : ∀ s : Side, s = side ∨ s = side.another := by
          intro s; cases s <;> cases side <;> simp [Side.another]
        intro s hne
        rcases hsides s with hs | hs
        · subst hs
          exact ⟨bi, hnew⟩
        · subst hs
          have hne' : (arms.arm side.another).future ≠ [] := hne
          rw [hold] at hne'
          obtain ⟨i, hi⟩ := ih side.another hne'
          exact ⟨i, by show (arms.arm side.another).lock = _; rw [hold]; exact hi⟩
  | @setEvent m name _ ih =>
    have ha : (m.setEvent name).arms = m.arms := by
      unfold MotionCreator.setEvent
      split_ifs <;> rfl
    intro side hne
    rw [ha] at hne ⊢
    exact ih side hne

/-- A tick completes as long as no earlier call raised: in every state reached
from construction (with freshly constructed arms) by calls of `setup`,
`addBall`, `moveArm`, `drawNext` and `setEvent` that all complete, one tick
completes without raising, and each arm whose queue is non-empty holds a lock
on an existing ball.  States left behind by a call that raises are not
covered. -/
theorem tick_completes [FloorRing α] (M : JSMath α) (viewY viewHeight : α)
    (rEllipse lEllipse : Ellipse α) (rHand rElbow lHand lElbow : DOMPoint α)
    (m : MotionCreator α)
    (h : Reachable M (MotionCreator.new M viewY viewHeight
        (ArmAnimator.new rEllipse rHand rElbow) (ArmAnimator.new lEllipse lHand lElbow)) m) :
    (∃ m' events, m.drawNext M = some (m', events)) ∧
    ∀ side : Side, (m.arms.arm side).future ≠ [] →
      ∃ i ball, (m.arms.arm side).lock = some i ∧ m.balls.stock[i]? = some ball := by
  have h0 : LockInv (MotionCreator.new M viewY viewHeight
        (ArmAnimator.new rEllipse rHand rElbow) (ArmAnimator.new lEllipse lHand lElbow)) ∧
      LocksDistinct (MotionCreator.new M viewY viewHeight
        (ArmAnimator.new rEllipse rHand rElbow) (ArmAnimator.new lEllipse lHand lElbow)) := by
    constructor
    · intro side i hl
      cases side <;> cases hl
    · intro i hi
      cases hi.1
  have h1 : BusyLocked (MotionCreator.new M viewY viewHeight
        (ArmAnimator.new rEllipse rHand rElbow) (ArmAnimator.new lEllipse lHand lElbow)) := by
    intro side hne
    cases side <;> exact absurd rfl hne
  have hinv := (reachable_inv M _ m h0 h).1
  have hbusy := reachable_busy_locked M _ m h1 h
  constructor
  · obtain ⟨bc, bq⟩ := drawNext_queueLength m.balls
    have harm : ∀ side : Side, (m.arms.arm side).future ≠ [] →
        ∃ i n, (m.arms.arm side).lock = some i ∧ m.balls.drawNext.1.queueLength i = some n := by
      intro side hne
      obtain ⟨i, hi⟩ := hbusy side hne
      obtain ⟨hic, hq, -⟩ := hinv side i hi
      exact ⟨i, _, hi, by rw [bq i hic, hq]; rfl⟩
    obtain ⟨⟨arms, balls⟩, hr⟩ := arms_drawNext_isSome M m.arms m.balls.drawNext.1 harm
    unfold MotionCreator.drawNext
    simp only [hr]
    exact ⟨_, _, rfl⟩
  · intro side hne
    obtain ⟨i, hi⟩ := hbusy side hne
    obtain ⟨-, hq, -⟩ := hinv side i hi
    unfold BallCollection.queueLength at hq
    cases hb : m.balls.stock[i]? with
    | none => rw [hb] at hq; cases hq
    | some ball => exact ⟨i, ball, hi, hb⟩

/-- A tick completes in the state reached by `setup(1)` followed by
`moveArm()`, in which the left arm is busy. -/
theorem tick_completes_witness :
    ∃ m, afterFirstAssignment = some m ∧
      (∃ m' events, m.drawNext ratMath = some (m', events)) ∧
      ∀ side : Side, (m.arms.arm side).future ≠ [] →
        ∃ i ball, (m.arms.arm side).lock = some i ∧ m.balls.stock[i]? = some ball := by
  have hsome : afterFirstAssignment.isSome = true := by with_unfolding_all rfl
  obtain ⟨m, hm⟩ := Option.isSome_iff_exists.mp hsome
  obtain ⟨m1, h1, h2⟩ := Option.bind_eq_some.mp hm
  exact ⟨m, hm,
    tick_completes ratMath 0 300 sampleEllipse sampleEllipse
      (DOMPoint.xy (-50) 280) (DOMPoint.xy (-40) 250) (DOMPoint.xy 50 280) (DOMPoint.xy 40 250) m
      (Reachable.moveArm (Reachable.setup (some 1) false Reachable.init h1) h2)⟩

/-! ## The same computations on IEEE doubles -/

/-- C1 fails on doubles for the state `x = 0`, `y = 0`, `dy = 0`, `dx = 1` with
`accel = 0.2`, `half = accel / 2` and `n = 6`: six one-tick advances give
`y = 3` and `dy = 1.2`, while `getPosition(6)` gives `y = 3.0000000000000004`
and `dy = 1.2000000000000002`. -/
theorem getPosition_iterate_on_doubles :
    doublePool.half = doublePool.accel / 2 ∧
    ((Double.step doublePool)^[6] sampleBall).y = 3 ∧
    (Double.getPosition doublePool sampleBall 6).y = 6755399441055745 / 2251799813685248 ∧
    ((Double.step doublePool)^[6] sampleBall).dy = 5404319552844595 / 4503599627370496 ∧
    (Double.getPosition doublePool sampleBall 6).dy = 1351079888211149 / 1125899906842624 ∧
    ((Double.step doublePool)^[6] sampleBall).y ≠ (Double.getPosition doublePool sampleBall 6).y ∧
    ((Double.step doublePool)^[6] sampleBall).dy
      ≠ (Double.getPosition doublePool sampleBall 6).dy := by
  decide!

/-- C3 fails on doubles for `top = 20`, `launcherY = 270`, `accel = 0.2`,
`half = accel / 2`: the tick count `sqrt((270 - 20) / half)` is exactly `50`,
and after `50` ticks the ball is at `y = 19.999999999999854`, below the top
line and not on it. -/
theorem launch_apex_on_doubles :
    0 < doublePool.half ∧ doublePool.accel = 2 * doublePool.half ∧ doublePool.top = 20 ∧
    Double.sqrt (Double.div (Double.sub 270 doublePool.top) doublePool.half) = 50 ∧
    ((Double.step doublePool)^[50]
      { sampleBall with y := 270, dy := Double.getVelocity doublePool 270 }).y
      = 5629499534213079 / 281474976710656 ∧
    ((Double.step doublePool)^[50]
      { sampleBall with y := 270, dy := Double.getVelocity doublePool 270 }).y
      < doublePool.top := by
  decide!

/-- C6 fails on doubles for the ellipse with centre `(0, 0)`, `rx = 3`, `ry = 4`
and the hand `(6, 1)`, which lies outside: the computed elbow
`(2.976833630141003, 0.4961389383568338)` does not satisfy the boundary
equation. -/
theorem getElbow_on_doubles :
    1 < ((6 - sampleEllipse.cx) / sampleEllipse.rx) ^ 2
      + ((1 - sampleEllipse.cy) / sampleEllipse.ry) ^ 2 ∧
    (Double.getElbow sampleEllipse (DOMPoint.xy 6 1)).x
      = 6703233413723491 / 2251799813685248 ∧
    (Double.getElbow sampleEllipse (DOMPoint.xy 6 1)).y
      = 8937644551631321 / 18014398509481984 ∧
    (((Double.getElbow sampleEllipse (DOMPoint.xy 6 1)).x - sampleEllipse.cx)
        / sampleEllipse.rx) ^ 2
      + (((Double.getElbow sampleEllipse (DOMPoint.xy 6 1)).y - sampleEllipse.cy)
        / sampleEllipse.ry) ^ 2 ≠ 1 := by
  decide!

/-- C16 fails on doubles for the first assignment after `setup(1)` on the view
`y = 0`, `height = 300` (ball at `(30, 320)`, hand of the left arm at
`(50, 280)`, `delay = 5`): the fifth waypoint of the arm, `getPosition(5)` and
the ball after five free-fall ticks are three different points. -/
theorem interception_on_doubles :
    ((Double.first doublePool launchedBall (DOMPoint.xy 50 280) 5)[4]?).map
        (fun p => (p.x, p.y))
      = some (1641937364145493 / 70368744177664, 1177479071522185 / 4398046511104) ∧
    ((Double.getPosition doublePool launchedBall 5).x,
        (Double.getPosition doublePool launchedBall 5).y)
      = (3283874728290987 / 140737488355328, 2354958143044369 / 8796093022208) ∧
    (((Double.step doublePool)^[5] launchedBall).x, ((Double.step doublePool)^[5] launchedBall).y)
      = (6567749456581975 / 281474976710656, 4709916286088737 / 17592186044416) ∧
    ((Double.first doublePool launchedBall (DOMPoint.xy 50 280) 5)[4]?).map (fun p => p.x)
      ≠ some (Double.getPosition doublePool launchedBall 5).x ∧
    ((Double.step doublePool)^[5] launchedBall).x
      ≠ (Double.getPosition doublePool launchedBall 5).x ∧
    ((Double.step doublePool)^[5] launchedBall).y
      ≠ (Double.getPosition doublePool launchedBall 5).y := by
  decide!

/-! ## States left behind by calls that raise -/

/-- C2 fails on the run `setup(3)`, `moveArm()`, `setup(5, true)`, `setup()`,
`moveArm()`.  After the first two calls the left arm holds ball `0`;
`setup(5, true)` raises and leaves `count = 5` with `3` balls and the arms as
they were; `setup()` raises after resetting the three balls, so ball `0` has
an empty queue again while the left arm still holds it; the last `moveArm()`
then gives ball `0` to the right arm as well. -/
theorem both_arms_lock_one_ball :
    lockedLeft.map (fun m => (m.arms.left.lock, m.arms.right.lock,
        (m.setup ratMath (some 5) true).isSome))
      = some (some 0, none, false) ∧
    afterFailedSpeedUp.map (fun m => (m.balls.count, m.balls.stock.length, m.arms.left.lock,
        m.arms.left.future.length, (m.setup ratMath none false).isSome))
      = some (5, 3, some 0, 16, false) ∧
    afterFailedRestart.map (fun m => (m.balls.stock.map (fun b => b.future.length),
        m.arms.left.lock, m.arms.left.future.length))
      = some ([0, 48, 96], some 0, 16) ∧
    (afterFailedRestart.bind MotionCreator.moveArm).map
        (fun m => (m.arms.right.lock, m.arms.left.lock))
      = some (some 0, some 0) := by
  refine ⟨?_, ?_, ?_, ?_⟩ <;> with_unfolding_all rfl

/-- C15 fails on the run `setup(3)`, `setup(5, true)`, `addBall()`,
`drawNext()`.  `setupSpeed(5)` raises and leaves `count = 5` with `3` balls;
`addBall()` then raises in `#setBalls`, leaving `count = 6` and `4` balls, the
fourth (position `3`) being the ball just constructed and never set up, inside
the active prefix; the tick that follows raises in `setNext` of that ball. -/
theorem blank_ball_becomes_active :
    threeBalls.map (fun o => ((o.setupSpeed ratMath 5).isSome,
        ((o.setupSpeedLeft ratMath 5).addBall ratMath).isSome,
        (o.setupSpeedLeft ratMath 5).addBallLeft.count,
        (o.setupSpeedLeft ratMath 5).addBallLeft.stock.length,
        (o.setupSpeedLeft ratMath 5).addBallBlank,
        ((o.setupSpeedLeft ratMath 5).addBallLeft.drawNextLeft
          (o.setupSpeedLeft ratMath 5).addBallBlank).isSome))
      = some (false, false, 6, 4, [3], false) := by
  with_unfolding_all rfl

end Theorems

end Tap
